import Mathlib

/-! # Checkout board: server store, client poller and checkout flow

A shallow embedding of `server.js` (the in-memory store behind the four routes) and of
`asset/scripts/script.js` (the polling loop `loadProducts`, the `checkout` flow and its two
timer callbacks), followed by theorems about them.

The client computes with JavaScript numbers.  They are modelled exactly: a finite binary64 value
is an integer number of units of `2^-1074` (the least positive binary64 value) with a sign, and
`parseFloat`, `+` and `toFixed` follow ECMA-262 with round-to-nearest, ties-to-even.

The records are free-form: an entry of the list the client receives can be `null`, and a field
of it can lack a text conversion.  Reading such an entry throws inside the `try` of
`loadProducts` and of `checkout`; the `catch` only logs, so the state stays as it is at the
point of the throw.
-/

namespace Campus

/-! ## JavaScript numbers -/

/-- Two to the 1074: how many units of the least positive binary64 value make up 1. -/
def unitsPerOne : Nat := 2 ^ 1074

/-- The first magnitude, in units of `2^-1074`, that is no longer finite: `2^1024`. -/
def overflowUnits : Nat := 2 ^ 2098

/-- A JavaScript Number value.  `fin negative units` is the finite value
`± units * 2^-1074`; `fin true 0` is `-0`. -/
inductive JSNumber where
  | nan
  | inf (negative : Bool)
  | fin (negative : Bool) (units : Nat)
  deriving DecidableEq, Repr

/-- Number of binary digits of `n`, by halving at most `fuel` times. -/
def bitLengthAux : Nat → Nat → Nat
  | 0, _ => 0
  | fuel + 1, n => if n = 0 then 0 else bitLengthAux fuel (n / 2) + 1

/-- Number of binary digits of `n` (`0` for `0`). -/
def bitLength (n : Nat) : Nat := bitLengthAux n n

/-- The integer nearest to `n / d`, ties going to the even integer. -/
def roundHalfEven (n d : Nat) : Nat :=
  if 2 * (n % d) < d then n / d
  else if d < 2 * (n % d) then n / d + 1
  else if (n / d) % 2 = 0 then n / d else n / d + 1

/-- The binary64 value nearest to the non-negative rational `n / d`, where `n / d` is measured in
units of `2^-1074`: the value is rounded to 53 significant bits (to a whole number of units when it
is below `2^53` units, which covers the subnormal range), and overflows to infinity from `2^1024`
on. -/
def roundToDouble (negative : Bool) (n d : Nat) : JSNumber :=
  if roundHalfEven n (d * 2 ^ (bitLength (n / d) - 53)) * 2 ^ (bitLength (n / d) - 53)
      < overflowUnits then
    .fin negative (roundHalfEven n (d * 2 ^ (bitLength (n / d) - 53))
      * 2 ^ (bitLength (n / d) - 53))
  else .inf negative

/-- The `+` of two Number values (ECMA-262 `Number::add`). -/
def JSNumber.add : JSNumber → JSNumber → JSNumber
  | .nan, _ => .nan
  | .inf _, .nan => .nan
  | .inf a, .inf b => if a = b then .inf a else .nan
  | .inf a, .fin _ _ => .inf a
  | .fin _ _, .nan => .nan
  | .fin _ _, .inf b => .inf b
  | .fin sa a, .fin sb b =>
    if sa = sb then roundToDouble sa (a + b) 1
    else if a = b then .fin false 0
    else if b < a then roundToDouble sa (a - b) 1
    else roundToDouble sb (b - a) 1

/-- The characters `parseFloat` skips at the start of its argument (`StrWhiteSpaceChar`). -/
def isStrWhiteSpaceChar (c : Char) : Bool :=
  c.toNat ∈ [0x09, 0x0A, 0x0B, 0x0C, 0x0D, 0x20, 0xA0, 0x1680, 0x2028, 0x2029, 0x202F, 0x205F,
    0x3000, 0xFEFF] || (0x2000 ≤ c.toNat && c.toNat ≤ 0x200A)

/-- Reads the longest run of decimal digits, continuing the number `acc`; returns the number, how
many digits were read added to `cnt`, and the unread characters. -/
def readDigits : List Char → Nat → Nat → Nat × Nat × List Char
  | [], acc, cnt => (acc, cnt, [])
  | c :: cs, acc, cnt =>
    if '0' ≤ c ∧ c ≤ '9' then readDigits cs (acc * 10 + (c.toNat - 48)) (cnt + 1)
    else (acc, cnt, c :: cs)

/-- The value of an optional `ExponentPart` (`e` or `E`, an optional sign, at least one digit) at
the head of the characters; `0` when there is none. -/
def readExponent : List Char → Int
  | [] => 0
  | c :: r =>
    if c = 'e' ∨ c = 'E' then
      let sr : Bool × List Char :=
        match r with
        | '+' :: t => (false, t)
        | '-' :: t => (true, t)
        | _ => (false, r)
      let d := readDigits sr.2 0 0
      if d.2.1 = 0 then 0 else if sr.1 then - (d.1 : Int) else (d.1 : Int)
    else 0

/-- The longest leading `StrUnsignedDecimalLiteral` made of digits, as `(mantissa, exp10)` with
value `mantissa * 10^exp10`; `none` when the characters do not start with one. -/
def parseUnsignedDecimal (cs : List Char) : Option (Nat × Int) :=
  match (readDigits cs 0 0).2.2 with
  | '.' :: r =>
    if (readDigits cs 0 0).2.1 = 0 ∧ (readDigits r (readDigits cs 0 0).1 0).2.1 = 0 then none
    else some ((readDigits r (readDigits cs 0 0).1 0).1,
      readExponent (readDigits r (readDigits cs 0 0).1 0).2.2
        - ((readDigits r (readDigits cs 0 0).1 0).2.1 : Int))
  | rest => if (readDigits cs 0 0).2.1 = 0 then none else some ((readDigits cs 0 0).1,
      readExponent rest)

/-- What `parseFloat` recognises at the start of a text. -/
inductive StrDecimal where
  | infinity (negative : Bool)
  | decimal (negative : Bool) (mantissa : Nat) (exp10 : Int)
  deriving DecidableEq, Repr

/-- The sign and the rest of a text after its leading white space. -/
def readSign (cs : List Char) : Bool × List Char :=
  match cs with
  | '+' :: t => (false, t)
  | '-' :: t => (true, t)
  | _ => (false, cs)

/-- The longest leading `StrDecimalLiteral` of a text, after its leading white space. -/
def parseStrDecimal (s : String) : Option StrDecimal :=
  let sr := readSign (s.toList.dropWhile isStrWhiteSpaceChar)
  if sr.2.take 8 = "Infinity".toList then some (.infinity sr.1)
  else (parseUnsignedDecimal sr.2).map fun me => .decimal sr.1 me.1 me.2

/-- The global `parseFloat` applied to a text: `NaN` when the text does not start with a decimal
literal, else the binary64 value nearest to the literal. -/
def parseFloat (s : String) : JSNumber :=
  match parseStrDecimal s with
  | none => .nan
  | some (.infinity neg) => .inf neg
  | some (.decimal neg m e) =>
    roundToDouble neg (m * 10 ^ e.toNat * unitsPerOne) (10 ^ (-e).toNat)

/-- The digits of `n` with a decimal point before the last `f` of them, padded with zeros to at
least one digit before the point. -/
def fixedString (f n : Nat) : String :=
  let m := List.replicate (f + 1 - (Nat.toDigits 10 n).length) '0' ++ Nat.toDigits 10 n
  if f = 0 then String.mk m
  else String.mk (m.take (m.length - f) ++ '.' :: m.drop (m.length - f))

/-- The candidates with `k` significant digits for the shortest decimal that reads back as the
integer-valued binary64 `x`: the nearest one when there are two. -/
def shortestCandidates (x k : Nat) : List Nat :=
  let p := 10 ^ ((Nat.toDigits 10 x).length - k)
  let lo := x / p * p
  let hi := lo + p
  match [lo, hi].filter fun v =>
      decide (roundToDouble false (v * unitsPerOne) 1 = .fin false (x * unitsPerOne)) with
  | [a, b] =>
    if x - a < b - x then [a] else if b - x < x - a then [b]
    else if (a / p) % 2 = 0 then [a] else [b]
  | l => l

/-- The decimal with the fewest significant digits that reads back as the integer-valued
binary64 `x`. -/
def shortestDecimal (x : Nat) : Nat :=
  ((List.range 17).map (· + 1)).foldr (fun k rest =>
    match shortestCandidates x k with
    | v :: _ => v
    | [] => rest) x

/-- The text `Number::toString` gives for a finite value `x` that is at least `10^21`. -/
def exponentialString (x : Nat) : String :=
  let ds := Nat.toDigits 10 (shortestDecimal x)
  match (ds.reverse.dropWhile (· = '0')).reverse with
  | [] => "0"
  | [d] => String.mk [d] ++ "e+" ++ toString (ds.length - 1)
  | d :: rest => String.mk (d :: '.' :: rest) ++ "e+" ++ toString (ds.length - 1)

/-- The method `Number.prototype.toFixed(fractionDigits)`: the value rounded to that many
decimals, the larger candidate on a tie of the magnitude. -/
def JSNumber.toFixed : JSNumber → Nat → String
  | .nan, _ => "NaN"
  | .inf false, _ => "Infinity"
  | .inf true, _ => "-Infinity"
  | .fin neg u, f =>
    (if neg ∧ u ≠ 0 then "-" else "") ++
      if 10 ^ 21 * unitsPerOne ≤ u then exponentialString (u / unitsPerOne)
      else fixedString f ((2 * 10 ^ f * u + unitsPerOne) / (2 * unitsPerOne))

/-! ## The server (`server.js`) -/

/-- The process-wide state of the server: `let products = []; let orders = [];`.  A body is
whatever the JSON body parser produced; the server never looks inside it. -/
structure Store (β : Type) where
  products : List β
  orders : List β
  deriving DecidableEq, Repr

/-- The store of a freshly started server. -/
def Store.empty {β : Type} : Store β := ⟨[], []⟩

/-- The four routes of the API. -/
inductive Request (β : Type) where
  | postProduct (body : β)
  | getProduct
  | postCheckout (body : β)
  | deleteProduct
  deriving DecidableEq, Repr

/-- What a route sends back: `res.send(text)`, `res.json(products)` or
`res.json({ status })`. -/
inductive Response (β : Type) where
  | send (text : String)
  | json (products : List β)
  | jsonStatus (status : String)
  deriving DecidableEq, Repr

/-- Route `app.post("/product")`: `products.push(product); res.send("Product added")`. -/
def postProduct {β : Type} (body : β) (st : Store β) : Store β × Response β :=
  ({ st with products := st.products ++ [body] }, .send "Product added")

/-- Route `app.get("/product")`: `res.json(products)`. -/
def getProduct {β : Type} (st : Store β) : Store β × Response β :=
  (st, .json st.products)

/-- Route `app.post("/checkout")`: `orders.push(order); res.send("Checkout successful")`. -/
def postCheckout {β : Type} (body : β) (st : Store β) : Store β × Response β :=
  ({ st with orders := st.orders ++ [body] }, .send "Checkout successful")

/-- Route `app.delete("/product")`: `products = []; res.json(...)`. -/
def deleteProduct {β : Type} (st : Store β) : Store β × Response β :=
  ({ st with products := [] }, .jsonStatus "all products cleared")

/-- The server handling one request. -/
def handle {β : Type} (st : Store β) : Request β → Store β × Response β
  | .postProduct body => postProduct body st
  | .getProduct => getProduct st
  | .postCheckout body => postCheckout body st
  | .deleteProduct => deleteProduct st

/-- The store after a sequence of requests handled one after the other. -/
def serve {β : Type} (st : Store β) (reqs : List (Request β)) : Store β :=
  reqs.foldl (fun s r => (handle s r).1) st

/-- The body of a request when it is an `AddProduct`. -/
def Request.added? {β : Type} : Request β → Option β
  | .postProduct body => some body
  | _ => none

/-- Whether a request is a `ClearProducts`. -/
def Request.isDelete {β : Type} : Request β → Bool
  | .deleteProduct => true
  | _ => false

/-! ## The client (`asset/scripts/script.js`) -/

/-- An entry of the array the client receives that is not `null`.  Each field holds the text
JavaScript makes of the field when it is put in a template or handed to `parseFloat` (a missing
field is the text `undefined`); a field is `none` when it has no text conversion, so that
converting it throws a `TypeError` (an object whose `toString` is not callable).  In a list of
entries, `none` is a `null` entry: reading a property of it throws a `TypeError`. -/
structure Product where
  id : Option String
  name : Option String
  price : Option String
  taken : Option String
  unit : Option String
  payable : Option String
  deriving DecidableEq, Repr

/-- The values the scripts give to the CSS `display` property. -/
inductive Display where
  | none
  | grid
  | block
  deriving DecidableEq, Repr

/-- An element is shown unless its `display` is `none`. -/
def Display.visible : Display → Bool
  | .none => false
  | _ => true

/-- The state the scripts read and write: the global `InitialCount`, the page elements they touch,
and the timers `checkout` has set and that have not fired yet.  `home` is the content of `#home`
as the sequence of fragments appended to its `innerHTML`, one per rendered card. -/
structure ClientState where
  InitialCount : Int
  home : List String
  display1 : Display
  displayHome : Display
  display2 : Display
  displayQr : Display
  displaySuccess : Display
  displayFinal : Display
  label2 : String
  imageSrc : String
  pendingQrTimeout : Nat
  pendingResetTimeout : Nat
  deriving DecidableEq, Repr

/-- The loop `for (let product of products) payable += parseFloat(product.payable)` from the
value `payable` on; `none` when it throws, at the first entry that is `null` or whose `payable`
has no text conversion. -/
def payableLoop : List (Option Product) → JSNumber → Option JSNumber
  | [], payable => some payable
  | none :: _, _ => none
  | some product :: rest, payable =>
    match product.payable with
    | none => none
    | some text => payableLoop rest (payable.add (parseFloat text))

/-- The statements `let payable = 0; for (let product of products) ...`; `none` when the loop
throws. -/
def sumPayable (products : List (Option Product)) : Option JSNumber :=
  payableLoop products (.fin false 0)

/-- The template literal `x` of `loadProducts`, the markup of one card; `none` when one of the
six fields has no text conversion, so that the template throws. -/
def card (product : Product) : Option String :=
  match product.id, product.name, product.price, product.taken, product.unit,
    product.payable with
  | some id, some name, some price, some taken, some unit, some payable =>
    some ("\n            <section>\n" ++
      "                <div class=\"card card-long animated fadeInUp once\">\n" ++
      "                    <img src=\"asset/img/" ++ id ++ ".jpg\" class=\"album\">\n" ++
      "                    <div class=\"span1\">Product Name</div>\n" ++
      "                    <div class=\"card__product\">" ++ name ++ "</div>\n\n" ++
      "                    <div class=\"span2\">Per Unit</div>\n" ++
      "                    <div class=\"card__price\">" ++ price ++ "</div>\n\n" ++
      "                    <div class=\"span3\">Units</div>\n" ++
      "                    <div class=\"card__unit\">" ++ taken ++ " " ++ unit ++
      "</div>\n\n" ++
      "                    <div class=\"span4\">Payable</div>\n" ++
      "                    <div class=\"card__amount\">" ++ payable ++ "</div>\n" ++
      "                </div>\n            </section>\n            ")
  | _, _, _, _, _, _ => none

/-- The statements `const product = products[products.length - 1]; const x = ...`: the card of
the last entry; `none` when they throw (the entry is `null`, or a field of it has no text
conversion). -/
def lastCard? (products : List (Option Product)) : Option String :=
  products.getLast?.join.bind card

/-- One run of `loadProducts`.  `res` is the outcome of `axios.get(API_BASE + "/product")`:
`none` when the request fails, else the array received.  Whatever is thrown is caught and
logged, which leaves the state as it is at that point: after a throw in the rendering branch the
three views are switched and nothing else is. -/
def loadProducts (res : Option (List (Option Product))) (s : ClientState) : ClientState :=
  match res with
  | none => s
  | some products =>
    if products.length = 0 then
      { s with
        home := []
        display1 := .grid
        displayHome := .none
        display2 := .none
        InitialCount := -1 }
    else if (products.length : Int) > s.InitialCount + 1 then
      match sumPayable products, lastCard? products with
      | some payable, some x =>
        { s with
          display1 := .none
          displayHome := .grid
          display2 := .grid
          home := s.home ++ [x]
          label2 := "CHECKOUT LKR " ++ payable.toFixed 2
          InitialCount := s.InitialCount + 1 }
      | _, _ => { s with display1 := .none, displayHome := .grid, display2 := .grid }
    else s

/-- The characters `encodeURIComponent` leaves as they are. -/
def uriUnreserved (c : Char) : Bool :=
  c.isAlphanum || c.toNat ∈ [0x2D, 0x5F, 0x2E, 0x21, 0x7E, 0x2A, 0x27, 0x28, 0x29]

/-- The bytes of the UTF-8 encoding of a character. -/
def utf8Bytes (c : Char) : List Nat :=
  if c.toNat < 0x80 then [c.toNat]
  else if c.toNat < 0x800 then [0xC0 + c.toNat / 64, 0x80 + c.toNat % 64]
  else if c.toNat < 0x10000 then
    [0xE0 + c.toNat / 4096, 0x80 + c.toNat / 64 % 64, 0x80 + c.toNat % 64]
  else [0xF0 + c.toNat / 262144, 0x80 + c.toNat / 4096 % 64, 0x80 + c.toNat / 64 % 64,
    0x80 + c.toNat % 64]

/-- An upper-case hexadecimal digit. -/
def hexDigit (n : Nat) : Char :=
  if n < 10 then Char.ofNat (48 + n) else Char.ofNat (55 + n)

/-- The escape `%XX` of one byte. -/
def percentEscape (b : Nat) : List Char :=
  ['%', hexDigit (b / 16), hexDigit (b % 16)]

/-- The characters `encodeURIComponent` makes of one character. -/
def encodeChar (c : Char) : List Char :=
  if uriUnreserved c then [c] else (utf8Bytes c).flatMap percentEscape

/-- The global `encodeURIComponent` on a text. -/
def encodeURIComponent (s : String) : String :=
  String.mk (s.toList.flatMap encodeChar)

/-- The text `plainData` of `checkout` for the total `payable`. -/
def plainDataOf (payable : JSNumber) : String :=
  "Total Payable: LKR " ++ payable.toFixed 2

/-- The text `qrUrl` of `checkout` for the message `plain`. -/
def qrUrlOf (plain : String) : String :=
  "https://api.qrserver.com/v1/create-qr-code/?data=" ++ encodeURIComponent plain
    ++ "&size=400x400&color=02c8db&bgcolor=ecf0f3"

/-- The constant `plainData` of `checkout`; `none` when the loop before it throws. -/
def plainData (products : List (Option Product)) : Option String :=
  (sumPayable products).map plainDataOf

/-- The constant `qrUrl` of `checkout`; `none` when the loop before it throws. -/
def qrUrl (products : List (Option Product)) : Option String :=
  (plainData products).map qrUrlOf

/-- The loading indicator `checkout` puts in `#2`. -/
def loaderMarkup : String :=
  "<span class=\x27loader-16\x27 style=\x27margin-left:44%;\x27></span>"

/-- One call of `checkout`, up to the point where it sets the 10 second timer.  `res` is the
outcome of the product request and `img` the outcome of fetching the QR image, as the object URL
made of it; `none` is a failure.  Whatever fails or is thrown is caught and logged, which leaves
the state as it is at that point.  The second component lists the URLs requested from the QR
service.  The call is taken as one step: the only write before its two `await`s is the label of
`#2`. -/
def checkout (res : Option (List (Option Product))) (img : Option String) (s : ClientState) :
    ClientState × List String :=
  match res with
  | none => ({ s with label2 := loaderMarkup }, [])
  | some products =>
    match qrUrl products with
    | none => ({ s with label2 := loaderMarkup }, [])
    | some url =>
      match img with
      | none => ({ s with label2 := loaderMarkup }, [url])
      | some image =>
        ({ s with
           label2 := loaderMarkup
           displayHome := .none
           displayFinal := .none
           imageSrc := image
           displayQr := .grid
           pendingQrTimeout := s.pendingQrTimeout + 1 }, [url])

/-- The callback of the 10 second timer, on the client: hide the QR view, show the success view,
ask the server to clear the products and set the 3 second timer. -/
def qrTimeout (s : ClientState) : ClientState :=
  { s with
    displayQr := .none
    displaySuccess := .grid
    pendingQrTimeout := s.pendingQrTimeout - 1
    pendingResetTimeout := s.pendingResetTimeout + 1 }

/-- The callback of the 3 second timer: back to the idle view. -/
def resetTimeout (s : ClientState) : ClientState :=
  { s with
    displaySuccess := .none
    display1 := .grid
    displayHome := .none
    home := []
    display2 := .none
    label2 := "CHECKOUT"
    displayFinal := .block
    InitialCount := -1
    pendingResetTimeout := s.pendingResetTimeout - 1 }

/-- What the event loop of the page can run next. -/
inductive ClientEvent where
  | tick (res : Option (List (Option Product)))
  | checkout (res : Option (List (Option Product))) (img : Option String)
  | qrTimeout
  | resetTimeout
  deriving DecidableEq, Repr

/-- One step of the client; a timer callback runs only when such a timer is pending. -/
def step (s : ClientState) : ClientEvent → Option ClientState
  | .tick res => some (loadProducts res s)
  | .checkout res img => some (checkout res img s).1
  | .qrTimeout => if 0 < s.pendingQrTimeout then some (qrTimeout s) else none
  | .resetTimeout => if 0 < s.pendingResetTimeout then some (resetTimeout s) else none

/-- The client after a sequence of events; `none` when the sequence cannot happen. -/
def run : List ClientEvent → ClientState → Option ClientState
  | [], s => some s
  | e :: es, s => (step s e).bind (run es)

/-- The page as loaded, before any script has run on it: idle view, nothing rendered. -/
def initialClient : ClientState :=
  { InitialCount := -1
    home := []
    display1 := .grid
    displayHome := .none
    display2 := .none
    displayQr := .none
    displaySuccess := .none
    displayFinal := .block
    label2 := "CHECKOUT"
    imageSrc := ""
    pendingQrTimeout := 0
    pendingResetTimeout := 0 }

/-! ## Server and poller together -/

/-- The server store together with one client.  The store holds each body as the client will
read it back: `none` for a body that is listed as `null`. -/
structure System where
  store : Store (Option Product)
  client : ClientState
  deriving DecidableEq, Repr

/-- A poller tick of the client against the server: `GET /product`, then `loadProducts` on the
array received. -/
def System.tick (sys : System) : System :=
  match (getProduct sys.store).2 with
  | .json products => { sys with client := loadProducts (some products) sys.client }
  | _ => sys

/-- An `AddProduct` followed by `extra + 1` poller ticks. -/
def System.addThenTick (sys : System) (entry : Option Product × Nat) : System :=
  System.tick^[entry.2 + 1] { sys with store := (postProduct entry.1 sys.store).1 }

/-- A schedule that adds the records one at a time, each followed by at least one tick. -/
def System.runSchedule (sys : System) (schedule : List (Option Product × Nat)) : System :=
  schedule.foldl System.addThenTick sys

/-! ## Totals and the QR request, as the specification words them -/

/-- The text of the `payable` field of an entry; `none` when reading it throws. -/
def payableText? (entry : Option Product) : Option String :=
  entry.bind Product.payable

/-- Every entry is a record whose `payable` has a text: the loop over it does not throw. -/
def readable (products : List (Option Product)) : Bool :=
  products.all fun entry => (payableText? entry).isSome

/-- All six fields of a record have a text. -/
def Product.complete (p : Product) : Bool :=
  p.id.isSome && p.name.isSome && p.price.isSome && p.taken.isSome && p.unit.isSome &&
    p.payable.isSome

/-- The total a tick or a checkout shows: the sum of the loop, formatted by `toFixed(2)`; `none`
when the loop throws. -/
def runningTotal (products : List (Option Product)) : Option String :=
  (sumPayable products).map fun payable => payable.toFixed 2

/-- The exact value of the decimal literal a text starts with; `none` when the text does not
start with a decimal literal. -/
def decimalValue (s : String) : Option ℚ :=
  match parseStrDecimal s with
  | some (.decimal neg m e) =>
    some ((if neg then -1 else 1) * ((m * 10 ^ e.toNat : ℕ) : ℚ) / ((10 ^ (-e).toNat : ℕ) : ℚ))
  | _ => none

/-- The exact value of the `payable` field of an entry; `none` when the field is not a decimal
text. -/
def payableValue? (entry : Option Product) : Option ℚ :=
  (payableText? entry).bind decimalValue

/-- The exact sum of the payable values of the records; `none` when one of them is not a decimal
text. -/
def exactSum : List (Option Product) → Option ℚ
  | [] => some 0
  | entry :: rest =>
    match payableValue? entry, exactSum rest with
    | some v, some r => some (v + r)
    | _, _ => none

/-- A rational rounded to two decimals, written the way `toFixed(2)` writes a number: the
magnitude goes to the nearest hundredth, a tie to the larger one. -/
def roundTwoDecimals (q : ℚ) : String :=
  (if q < 0 then "-" else "") ++ fixedString 2 ⌊|q| * 100 + 1 / 2⌋.toNat

/-- The independently computed total: the exact decimal sum of the payable values, rounded to
two decimals. -/
def exactTotal (products : List (Option Product)) : Option String :=
  (exactSum products).map roundTwoDecimals

/-- The number of hundredths a text stands for, when it starts with an unsigned decimal literal
with at most two decimals (after its exponent is applied). -/
def cents? (s : String) : Option Nat :=
  match parseStrDecimal s with
  | some (.decimal false m e) => if -2 ≤ e then some (m * 10 ^ (e + 2).toNat) else none
  | _ => none

/-- The number of hundredths the `payable` field of an entry stands for, when it is an unsigned
decimal text with at most two decimals. -/
def payableCents? (entry : Option Product) : Option Nat :=
  (payableText? entry).bind cents?

/-- The payable values of the records added up in hundredths. -/
def totalCents (products : List (Option Product)) : Nat :=
  (products.map fun entry => (payableCents? entry).getD 0).sum

/-- The parameters of the query part of a URL: what follows the first `?`, cut at every `&`,
each piece cut at its first `=`. -/
def queryParams (url : String) : List (String × String) :=
  (((url.toList.dropWhile (· ≠ '?')).drop 1).splitOn '&').map fun kv =>
    (String.mk (kv.takeWhile (· ≠ '=')), String.mk ((kv.dropWhile (· ≠ '=')).drop 1))

/-! ## Properties of the views -/

/-- The client is in the state a tick on an empty list leaves: cursor `-1`, nothing rendered,
`#1` shown, `#home` and `#2` hidden. -/
def IdleAfterEmpty (s : ClientState) : Prop :=
  s.InitialCount = -1 ∧ s.home = [] ∧ s.display1.visible = true ∧
    s.displayHome.visible = false ∧ s.display2.visible = false

/-- The Idle view is shown: `#1` is visible. -/
def idleVisible (s : ClientState) : Bool := s.display1.visible

/-- The Active view is shown: `#home` or `#2` is visible. -/
def activeVisible (s : ClientState) : Bool := s.displayHome.visible || s.display2.visible

/-- A Checkout screen is shown: `#qr` or `#success` is visible. -/
def checkoutVisible (s : ClientState) : Bool := s.displayQr.visible || s.displaySuccess.visible

/-- Only the Idle view is shown. -/
def OnlyIdle (s : ClientState) : Prop :=
  idleVisible s = true ∧ activeVisible s = false ∧ checkoutVisible s = false

/-- No two of the three views are shown together. -/
def AtMostOneView (s : ClientState) : Prop :=
  ¬ (idleVisible s = true ∧ activeVisible s = true) ∧
  ¬ (idleVisible s = true ∧ checkoutVisible s = true) ∧
  ¬ (activeVisible s = true ∧ checkoutVisible s = true)

/-- The record of the scenarios of the specification. -/
def rice : Product :=
  ⟨some "1", some "Rice", some "250.00", some "2", some "kg", some "500.00"⟩

/-- A second record, with payable `150.50`. -/
def dhal : Product :=
  ⟨some "2", some "Dhal", some "150.50", some "1", some "kg", some "150.50"⟩

/-- A third record, with payable `80.00`. -/
def salt : Product :=
  ⟨some "3", some "Salt", some "80.00", some "1", some "kg", some "80.00"⟩

/-- A record whose `payable` is an object with a `toString` that cannot be called, as in the
body `{"id": 9, "payable": {"toString": 1}}`: it has no text conversion. -/
def unreadable : Product :=
  ⟨some "9", some "undefined", some "undefined", some "undefined", some "undefined", none⟩

/-- A checkout as it normally goes, up to the first poll after the server was cleared: the
product is polled, `checkout` shows the QR view, the 10 second timer fires, the poller sees the
cleared store. -/
def checkoutTrace : List ClientEvent :=
  [.tick (some [some rice]), .checkout (some [some rice]) (some "blob:qr"), .qrTimeout,
    .tick (some [])]

/-- A product is added while the QR view is shown, and polled. -/
def addDuringQrTrace : List ClientEvent :=
  [.tick (some [some rice]), .checkout (some [some rice]) (some "blob:qr"),
    .tick (some [some rice, some dhal])]

/-- The number of rendered cards is the cursor plus one. -/
def CardsMatchCursor (s : ClientState) : Prop :=
  (s.home.length : Int) = s.InitialCount + 1

/-- While `#1` is shown, `#home` and `#2` are hidden. -/
def IdleHidesActive (s : ClientState) : Prop :=
  s.display1.visible = true → s.displayHome.visible = false ∧ s.display2.visible = false

/-- Every stored entry is a record with all six fields in text, the cards are those of the
stored records, in order, and the cursor is their number minus one. -/
def InSync (sys : System) : Prop :=
  (∀ entry ∈ sys.store.products, ∃ p, entry = some p ∧ p.complete = true) ∧
    sys.client.home.map some = sys.store.products.map (fun entry => entry.bind card) ∧
    sys.client.InitialCount = (sys.store.products.length : Int) - 1

/-! ## Theorems -/

/-! ### The store -/

theorem serve_append {β : Type} (st : Store β) (xs ys : List (Request β)) :
    serve st (xs ++ ys) = serve (serve st xs) ys := by
  simp [serve, List.foldl_append]

theorem serve_products_of_no_delete {β : Type} (reqs : List (Request β)) :
    ∀ st : Store β, (∀ r ∈ reqs, r.isDelete = false) →
      (serve st reqs).products = st.products ++ reqs.filterMap Request.added? := by
  induction reqs with
  | nil => intro st _; simp [serve]
  | cons r rest ih =>
    intro st h
    have hr : r.isDelete = false := h r (List.mem_cons_self _ _)
    have hrest : ∀ x ∈ rest, x.isDelete = false := fun x hx => h x (List.mem_cons_of_mem _ hx)
    have hstep : serve st (r :: rest) = serve (handle st r).1 rest := rfl
    rw [hstep, ih _ hrest]
    cases r with
    | postProduct body => simp [handle, postProduct, Request.added?]
    | getProduct => simp [handle, getProduct, Request.added?]
    | postCheckout body => simp [handle, postCheckout, Request.added?]
    | deleteProduct => simp [Request.isDelete] at hr

/-- C1: from an empty store, after any sequence of requests without a `DELETE /product`,
`GET /product` answers exactly the bodies of the `POST /product` requests, in the order they
came (for `AddProduct` calls alone: the records themselves); and from any store state, after
`AddProduct(r)` the list is the previous list with `r` appended at the end. -/
theorem C1_list_in_insertion_order {β : Type} (reqs : List (Request β))
    (hno : ∀ r ∈ reqs, r.isDelete = false) (rs : List β) (s : Store β) (r : β) :
    (getProduct (serve Store.empty reqs)).2 = .json (reqs.filterMap Request.added?) ∧
    (getProduct (serve Store.empty (rs.map Request.postProduct))).2 = .json rs ∧
    (getProduct s).2 = .json s.products ∧
    (getProduct (postProduct r s).1).2 = .json (s.products ++ [r]) := by
  refine ⟨?_, ?_, rfl, rfl⟩
  · show Response.json (serve Store.empty reqs).products = _
    rw [serve_products_of_no_delete reqs Store.empty hno]
    rfl
  · have h : ∀ x ∈ rs.map (Request.postProduct (β := β)), x.isDelete = false := by
      intro x hx
      obtain ⟨b, _, rfl⟩ := List.mem_map.1 hx
      rfl
    have hf : (rs.map (Request.postProduct (β := β))).filterMap Request.added? = rs := by
      induction rs with
      | nil => rfl
      | cons a t ih =>
        simp only [List.map_cons, List.filterMap_cons, Request.added?]
        rw [ih]
        intro x hx
        obtain ⟨b, _, rfl⟩ := List.mem_map.1 hx
        rfl
    show Response.json (serve Store.empty (rs.map Request.postProduct)).products = _
    rw [serve_products_of_no_delete _ Store.empty h, hf]
    rfl

theorem C1_list_in_insertion_order_witness :
    (∀ r ∈ [Request.postProduct 1, .getProduct, .postCheckout 7, .postProduct 2,
        .postProduct 1], Request.isDelete r = false) ∧
    (getProduct (serve Store.empty [Request.postProduct 1, .getProduct, .postCheckout 7,
      .postProduct 2, .postProduct 1])).2 = .json [1, 2, 1] := by
  have h : ∀ r ∈ [Request.postProduct 1, .getProduct, .postCheckout 7, .postProduct 2,
      .postProduct 1], Request.isDelete r = false := by decide
  exact ⟨h, (C1_list_in_insertion_order _ h [3] Store.empty 0).1⟩

/-- C2: whatever the store holds and whatever requests came before, `DELETE /product` answers
`{status: "all products cleared"}` and a `GET /product` right after it answers the empty
list. -/
theorem C2_clear_then_list_is_empty {β : Type} (st : Store β) (reqs : List (Request β)) :
    (deleteProduct (serve st reqs)).2 = .jsonStatus "all products cleared" ∧
    (getProduct (deleteProduct (serve st reqs)).1).2 = .json [] ∧
    (handle (handle (serve st reqs) .deleteProduct).1 .getProduct).2 = .json [] :=
  ⟨rfl, rfl, rfl⟩

/-! ### The poller tick -/

theorem payableLoop_isSome (products : List (Option Product)) :
    ∀ payable, (payableLoop products payable).isSome = readable products := by
  induction products with
  | nil => intro payable; rfl
  | cons entry rest ih =>
    intro payable
    cases entry with
    | none => simp [payableLoop, readable, payableText?]
    | some p =>
      cases hp : p.payable with
      | none => simp [payableLoop, readable, payableText?, hp]
      | some text =>
        have h := ih (payable.add (parseFloat text))
        simp only [readable] at h
        simp [payableLoop, readable, payableText?, hp, h]

theorem sumPayable_of_readable (products : List (Option Product))
    (h : readable products = true) : ∃ payable, sumPayable products = some payable := by
  have hs := payableLoop_isSome products (.fin false 0)
  rw [h] at hs
  exact Option.isSome_iff_exists.1 hs

theorem sumPayable_of_not_readable (products : List (Option Product))
    (h : readable products = false) : sumPayable products = none := by
  have hs := payableLoop_isSome products (.fin false 0)
  rw [h] at hs
  cases hsum : sumPayable products with
  | none => rfl
  | some v =>
    unfold sumPayable at hsum
    rw [hsum] at hs
    simp at hs

theorem lastCard?_eq (products : List (Option Product)) (last : Product) (x : String)
    (hlast : products.getLast? = some (some last)) (hcard : card last = some x) :
    lastCard? products = some x := by
  simp [lastCard?, hlast, hcard]

theorem loadProducts_of_le (s : ClientState) (products : List (Option Product))
    (hpos : 0 < products.length) (hle : (products.length : Int) ≤ s.InitialCount + 1) :
    loadProducts (some products) s = s := by
  have hlen : products.length ≠ 0 := by omega
  have hgt : ¬ (products.length : Int) > s.InitialCount + 1 := by omega
  simp [loadProducts, hlen, hgt]

theorem loadProducts_render (s : ClientState) (products : List (Option Product))
    (payable : JSNumber) (x : String) (hpos : 0 < products.length)
    (hgt : (products.length : Int) > s.InitialCount + 1)
    (hsum : sumPayable products = some payable) (hcard : lastCard? products = some x) :
    loadProducts (some products) s =
      { s with
        display1 := .none
        displayHome := .grid
        display2 := .grid
        home := s.home ++ [x]
        label2 := "CHECKOUT LKR " ++ payable.toFixed 2
        InitialCount := s.InitialCount + 1 } := by
  have hlen : products.length ≠ 0 := by omega
  simp [loadProducts, hlen, hgt, hsum, hcard]

theorem loadProducts_throw (s : ClientState) (products : List (Option Product))
    (hpos : 0 < products.length) (hgt : (products.length : Int) > s.InitialCount + 1)
    (h : sumPayable products = none ∨ lastCard? products = none) :
    loadProducts (some products) s =
      { s with display1 := .none, displayHome := .grid, display2 := .grid } := by
  have hlen : products.length ≠ 0 := by omega
  rcases h with h | h
  · simp [loadProducts, hlen, hgt, h]
  · cases hs : sumPayable products <;> simp [loadProducts, hlen, hgt, h, hs]

theorem loadProducts_cases (res : Option (List (Option Product))) (s : ClientState) :
    loadProducts res s = s ∨
    loadProducts res s =
      { s with
        home := []
        display1 := .grid
        displayHome := .none
        display2 := .none
        InitialCount := -1 } ∨
    loadProducts res s = { s with display1 := .none, displayHome := .grid, display2 := .grid } ∨
    ∃ x label, loadProducts res s =
      { s with
        display1 := .none
        displayHome := .grid
        display2 := .grid
        home := s.home ++ [x]
        label2 := label
        InitialCount := s.InitialCount + 1 } := by
  cases res with
  | none => exact Or.inl rfl
  | some products =>
    by_cases h0 : products.length = 0
    · right; left
      simp [loadProducts, h0]
    · have hpos : 0 < products.length := Nat.pos_of_ne_zero h0
      by_cases hgt : (products.length : Int) > s.InitialCount + 1
      · cases hs : sumPayable products with
        | none => exact Or.inr (Or.inr (Or.inl (loadProducts_throw s products hpos hgt (Or.inl hs))))
        | some payable =>
          cases hc : lastCard? products with
          | none =>
            exact Or.inr (Or.inr (Or.inl (loadProducts_throw s products hpos hgt (Or.inr hc))))
          | some x =>
            exact Or.inr (Or.inr (Or.inr
              ⟨x, _, loadProducts_render s products payable x hpos hgt hs hc⟩))
      · exact Or.inl (loadProducts_of_le s products hpos (by omega))

/-- C3, as stated, fails.  On an observed list with a `null` entry, or with a record whose
`payable` has no text conversion, the loop of the rendering branch throws: the tick appends no
card and leaves the cursor where it was. -/
theorem C3_tick_that_throws_appends_no_card :
    0 < [(none : Option Product)].length ∧
    (([(none : Option Product)].length : Int) > initialClient.InitialCount + 1) ∧
    (loadProducts (some [none]) initialClient).InitialCount = -1 ∧
    (loadProducts (some [none]) initialClient).home = [] ∧
    (loadProducts (some [some unreadable]) initialClient).InitialCount = -1 ∧
    (loadProducts (some [some unreadable]) initialClient).home = [] ∧
    ¬ (∀ (s : ClientState) (products : List (Option Product)), 0 < products.length →
        (products.length : Int) > s.InitialCount + 1 →
        (loadProducts (some products) s).InitialCount = s.InitialCount + 1 ∧
        (loadProducts (some products) s).home.length = s.home.length + 1) := by
  refine ⟨by decide, by decide, rfl, rfl, rfl, rfl, ?_⟩
  intro h
  have h1 := (h initialClient [none] (by decide) (by decide)).1
  have h2 : (loadProducts (some [none]) initialClient).InitialCount = -1 := rfl
  rw [h2] at h1
  exact absurd h1 (by decide)

/-- C3, amended: a tick that observes `K > 0` entries with `K > cursor + 1`, all of them records
whose `payable` has a text, and whose last record has all six fields in text, moves the cursor
to exactly `cursor + 1` and appends exactly one card, the card of the last record, after the
cards already rendered.  When an entry is `null` or lacks a text for a field the tick needs, the
tick only shows the Active view: the cards, the cursor and the label stay as they were. -/
theorem C3_tick_appends_one_card_unless_it_throws (s : ClientState)
    (products : List (Option Product)) (hpos : 0 < products.length)
    (hgt : (products.length : Int) > s.InitialCount + 1) :
    (∀ last x, readable products = true → products.getLast? = some (some last) →
      card last = some x →
      (loadProducts (some products) s).InitialCount = s.InitialCount + 1 ∧
      (loadProducts (some products) s).home = s.home ++ [x] ∧
      (loadProducts (some products) s).home.length = s.home.length + 1) ∧
    ((readable products = false ∨ lastCard? products = none) →
      (loadProducts (some products) s).InitialCount = s.InitialCount ∧
      (loadProducts (some products) s).home = s.home ∧
      (loadProducts (some products) s).label2 = s.label2 ∧
      (loadProducts (some products) s).display1 = .none ∧
      (loadProducts (some products) s).displayHome = .grid ∧
      (loadProducts (some products) s).display2 = .grid) := by
  constructor
  · intro last x hread hlast hcard
    obtain ⟨payable, hsum⟩ := sumPayable_of_readable products hread
    rw [loadProducts_render s products payable x hpos hgt hsum
      (lastCard?_eq products last x hlast hcard)]
    simp
  · intro h
    have h' : sumPayable products = none ∨ lastCard? products = none := by
      rcases h with h | h
      · exact Or.inl (sumPayable_of_not_readable products h)
      · exact Or.inr h
    rw [loadProducts_throw s products hpos hgt h']
    simp

theorem C3_tick_appends_one_card_unless_it_throws_witness :
    (0 < [some rice, some dhal, some salt].length ∧
      (([some rice, some dhal, some salt].length : Int) > initialClient.InitialCount + 1) ∧
      readable [some rice, some dhal, some salt] = true ∧
      [some rice, some dhal, some salt].getLast? = some (some salt)) ∧
    (∃ x, card salt = some x ∧
      (loadProducts (some [some rice, some dhal, some salt]) initialClient).InitialCount
        = initialClient.InitialCount + 1 ∧
      (loadProducts (some [some rice, some dhal, some salt]) initialClient).home
        = initialClient.home ++ [x]) ∧
    (0 < [some rice, none].length ∧
      (([some rice, none].length : Int) > initialClient.InitialCount + 1) ∧
      readable [some rice, none] = false) ∧
    (loadProducts (some [some rice, none]) initialClient).InitialCount
      = initialClient.InitialCount ∧
    (loadProducts (some [some rice, none]) initialClient).home = initialClient.home := by
  obtain ⟨x, hx⟩ : ∃ x, card salt = some x := ⟨_, rfl⟩
  have h1 := (C3_tick_appends_one_card_unless_it_throws initialClient
    [some rice, some dhal, some salt] (by decide) (by decide)).1 salt x (by decide) rfl hx
  have h2 := (C3_tick_appends_one_card_unless_it_throws initialClient
    [some rice, none] (by decide) (by decide)).2 (Or.inl (by decide))
  exact ⟨⟨by decide, by decide, by decide, rfl⟩, ⟨x, hx, h1.1, h1.2.1⟩,
    ⟨by decide, by decide, by decide⟩, h2.1, h2.2.1⟩

/-- C4: a tick that observes an empty list leaves the cursor at `-1`, nothing rendered, `#1`
shown and `#home` and `#2` hidden, whatever the client state was; in particular so does the
tick that follows a `DELETE /product` on the server. -/
theorem C4_tick_on_empty_list (s : ClientState) (products : List (Option Product))
    (hlen : products.length = 0) (store : Store (Option Product)) :
    IdleAfterEmpty (loadProducts (some products) s) ∧
    IdleAfterEmpty (System.tick ⟨(deleteProduct store).1, s⟩).client := by
  have hnil : products = [] := List.length_eq_zero.1 hlen
  subst hnil
  constructor <;>
    simp [IdleAfterEmpty, loadProducts, System.tick, getProduct, deleteProduct, Display.visible]

theorem C4_tick_on_empty_list_witness :
    ([] : List (Option Product)).length = 0 ∧
    IdleAfterEmpty (loadProducts (some [])
      (loadProducts (some [some rice]) initialClient)) ∧
    IdleAfterEmpty (System.tick ⟨(deleteProduct ⟨[some rice], []⟩).1,
      loadProducts (some [some rice]) initialClient⟩).client :=
  ⟨rfl, C4_tick_on_empty_list _ [] rfl _⟩

/-- C8: a tick that observes `K > 0` products with `K ≤ cursor + 1` changes nothing in the
client state: cursor, cards, visibility and label stay as they were. -/
theorem C8_tick_without_news_is_noop (s : ClientState) (products : List (Option Product))
    (hpos : 0 < products.length) (hle : (products.length : Int) ≤ s.InitialCount + 1) :
    loadProducts (some products) s = s := by
  have hlen : products.length ≠ 0 := by omega
  have hgt : ¬ (products.length : Int) > s.InitialCount + 1 := by omega
  simp [loadProducts, hlen, hgt]

theorem C8_tick_without_news_is_noop_witness :
    (0 < [some rice].length ∧
      (([some rice].length : Int)
        ≤ (loadProducts (some [some rice]) initialClient).InitialCount + 1)) ∧
    loadProducts (some [some rice]) (loadProducts (some [some rice]) initialClient)
      = loadProducts (some [some rice]) initialClient :=
  ⟨⟨by decide, by decide⟩, C8_tick_without_news_is_noop _ _ (by decide) (by decide)⟩

/-! ### Reachable client states -/

theorem checkout_cases (res : Option (List (Option Product))) (img : Option String)
    (s : ClientState) :
    (checkout res img s).1 = { s with label2 := loaderMarkup } ∨
    ∃ image, (checkout res img s).1 =
      { s with
        label2 := loaderMarkup
        displayHome := .none
        displayFinal := .none
        imageSrc := image
        displayQr := .grid
        pendingQrTimeout := s.pendingQrTimeout + 1 } := by
  cases res with
  | none => exact Or.inl rfl
  | some products =>
    cases hq : qrUrl products with
    | none => exact Or.inl (by simp [checkout, hq])
    | some url =>
      cases img with
      | none => exact Or.inl (by simp [checkout, hq])
      | some image => exact Or.inr ⟨image, by simp [checkout, hq]⟩

theorem cardsMatchCursor_step (e : ClientEvent) (s s' : ClientState)
    (h : CardsMatchCursor s) (hs : step s e = some s') : CardsMatchCursor s' := by
  unfold CardsMatchCursor at *
  cases e with
  | tick res =>
    simp only [step, Option.some.injEq] at hs
    subst hs
    rcases loadProducts_cases res s with h1 | h1 | h1 | ⟨x, label, h1⟩
    · rw [h1]; exact h
    · rw [h1]; simp
    · rw [h1]; exact h
    · rw [h1]
      simp only [List.length_append, List.length_singleton]
      push_cast
      omega
  | checkout res img =>
    simp only [step, Option.some.injEq] at hs
    subst hs
    rcases checkout_cases res img s with h1 | ⟨image, h1⟩
    · rw [h1]; exact h
    · rw [h1]; exact h
  | qrTimeout =>
    simp only [step] at hs
    split at hs
    · simp only [Option.some.injEq] at hs
      subst hs
      exact h
    · simp at hs
  | resetTimeout =>
    simp only [step] at hs
    split at hs
    · simp only [Option.some.injEq] at hs
      subst hs
      simp [resetTimeout]
    · simp at hs

theorem run_invariant (P : ClientState → Prop)
    (hstep : ∀ e s s', P s → step s e = some s' → P s') :
    ∀ (evs : List ClientEvent) (s0 s : ClientState), P s0 → run evs s0 = some s → P s := by
  intro evs
  induction evs with
  | nil =>
    intro s0 s h0 hr
    simp only [run, Option.some.injEq] at hr
    subst hr
    exact h0
  | cons e es ih =>
    intro s0 s h0 hr
    simp only [run] at hr
    cases hs : step s0 e with
    | none => simp [hs] at hr
    | some s1 =>
      rw [hs] at hr
      exact ih s1 s (hstep e s0 s1 h0 hs) hr

/-- C9: in every client state reached from a state with cursor `-1` and nothing rendered, by
any sequence of poller ticks (whatever they observe), `checkout` calls and timer callbacks, the
number of cards in `#home` is the cursor plus one, and the cursor is at least `-1`. -/
theorem C9_cards_match_cursor (s0 s : ClientState) (evs : List ClientEvent)
    (hcur : s0.InitialCount = -1) (hhome : s0.home = []) (hr : run evs s0 = some s) :
    (s.home.length : Int) = s.InitialCount + 1 ∧ -1 ≤ s.InitialCount := by
  have h0 : CardsMatchCursor s0 := by simp [CardsMatchCursor, hcur, hhome]
  have h : CardsMatchCursor s := run_invariant CardsMatchCursor cardsMatchCursor_step evs s0 s h0 hr
  unfold CardsMatchCursor at h
  exact ⟨h, by omega⟩

theorem C9_cards_match_cursor_witness :
    initialClient.InitialCount = -1 ∧ initialClient.home = [] ∧
    run checkoutTrace initialClient = some (loadProducts (some []) (qrTimeout
      (checkout (some [some rice]) (some "blob:qr")
        (loadProducts (some [some rice]) initialClient)).1)) ∧
    (((loadProducts (some []) (qrTimeout (checkout (some [some rice]) (some "blob:qr")
        (loadProducts (some [some rice]) initialClient)).1)).home.length : Int)
      = (loadProducts (some []) (qrTimeout (checkout (some [some rice]) (some "blob:qr")
        (loadProducts (some [some rice]) initialClient)).1)).InitialCount + 1 ∧
      -1 ≤ (loadProducts (some []) (qrTimeout (checkout (some [some rice]) (some "blob:qr")
        (loadProducts (some [some rice]) initialClient)).1)).InitialCount) :=
  ⟨rfl, rfl, rfl, C9_cards_match_cursor initialClient _ checkoutTrace rfl rfl rfl⟩

/-! ### The three views -/

theorem idleHidesActive_step (e : ClientEvent) (s s' : ClientState)
    (h : IdleHidesActive s) (hs : step s e = some s') : IdleHidesActive s' := by
  unfold IdleHidesActive at *
  cases e with
  | tick res =>
    simp only [step, Option.some.injEq] at hs
    subst hs
    rcases loadProducts_cases res s with h1 | h1 | h1 | ⟨x, label, h1⟩
    · rw [h1]; exact h
    · rw [h1]; simp [Display.visible]
    · rw [h1]; simp [Display.visible]
    · rw [h1]; simp [Display.visible]
  | checkout res img =>
    simp only [step, Option.some.injEq] at hs
    subst hs
    rcases checkout_cases res img s with h1 | ⟨image, h1⟩
    · rw [h1]; exact h
    · rw [h1]
      intro hv
      exact ⟨rfl, (h hv).2⟩
  | qrTimeout =>
    simp only [step] at hs
    split at hs
    · simp only [Option.some.injEq] at hs
      subst hs
      exact h
    · simp at hs
  | resetTimeout =>
    simp only [step] at hs
    split at hs
    · simp only [Option.some.injEq] at hs
      subst hs
      simp [resetTimeout, Display.visible]
    · simp at hs

theorem loadProducts_keeps_checkout_screens (res : Option (List (Option Product)))
    (s : ClientState) :
    (loadProducts res s).displayQr = s.displayQr ∧
    (loadProducts res s).displaySuccess = s.displaySuccess := by
  rcases loadProducts_cases res s with h1 | h1 | h1 | ⟨x, label, h1⟩ <;> rw [h1] <;> simp

/-- C7, as stated, fails.  In a checkout as it normally goes, the first poll after the 10 second
callback observes the cleared store and shows `#1` while `#success` is still shown; and a
product polled while the QR view is shown makes `#home` and `#2` visible together with `#qr`.
Both start from a state where only the Idle view is shown. -/
theorem C7_views_not_exclusive :
    OnlyIdle initialClient ∧
    (∃ s3 s4, run (checkoutTrace.take 3) initialClient = some s3 ∧
      s3.display1 = .none ∧ s3.displaySuccess = .grid ∧
      run checkoutTrace initialClient = some s4 ∧ s4 = loadProducts (some []) s3 ∧
      s4.display1 = .grid ∧ s4.displaySuccess = .grid ∧ ¬ AtMostOneView s4) ∧
    (∃ s, run addDuringQrTrace initialClient = some s ∧
      s.displayHome = .grid ∧ s.display2 = .grid ∧ s.displayQr = .grid ∧ ¬ AtMostOneView s) ∧
    ¬ (∀ s0 s evs, OnlyIdle s0 → run evs s0 = some s → AtMostOneView s) := by
  have hidle : OnlyIdle initialClient := by
    simp [OnlyIdle, idleVisible, activeVisible, checkoutVisible, initialClient, Display.visible]
  have h4 : run checkoutTrace initialClient = some (loadProducts (some []) (qrTimeout
      (checkout (some [some rice]) (some "blob:qr")
        (loadProducts (some [some rice]) initialClient)).1)) :=
    rfl
  have hbad : ¬ AtMostOneView (loadProducts (some []) (qrTimeout
      (checkout (some [some rice]) (some "blob:qr")
        (loadProducts (some [some rice]) initialClient)).1)) := by
    intro h
    exact h.2.1 ⟨rfl, rfl⟩
  refine ⟨hidle, ⟨_, _, rfl, rfl, rfl, h4, rfl, rfl, rfl, hbad⟩, ⟨_, rfl, rfl, rfl, rfl, ?_⟩, ?_⟩
  · intro h
    exact h.2.2 ⟨rfl, rfl⟩
  · intro h
    exact hbad (h _ _ _ hidle h4)

/-- C7, amended: in every state reached from a state where only the Idle view is shown, by
poller ticks, `checkout` calls and timer callbacks, the Idle view `#1` is never shown together
with an element of the Active view (`#home`, `#2`); and a poller tick leaves `#qr` and
`#success` as they are. -/
theorem C7_idle_and_active_exclusive (s0 s : ClientState) (evs : List ClientEvent)
    (h0 : OnlyIdle s0) (hr : run evs s0 = some s) :
    ¬ (idleVisible s = true ∧ activeVisible s = true) ∧
    ∀ res, (loadProducts res s).displayQr = s.displayQr ∧
      (loadProducts res s).displaySuccess = s.displaySuccess := by
  have hinit : IdleHidesActive s0 := by
    intro _
    have := h0.2.1
    simpa [activeVisible] using this
  have h : IdleHidesActive s := run_invariant IdleHidesActive idleHidesActive_step evs s0 s hinit hr
  refine ⟨?_, fun res => loadProducts_keeps_checkout_screens res s⟩
  rintro ⟨h1, h2⟩
  have h3 := h h1
  simp [activeVisible, h3.1, h3.2] at h2

theorem C7_idle_and_active_exclusive_witness :
    OnlyIdle initialClient ∧
    run checkoutTrace initialClient = some (loadProducts (some []) (qrTimeout
      (checkout (some [some rice]) (some "blob:qr")
        (loadProducts (some [some rice]) initialClient)).1)) ∧
    ¬ (idleVisible (loadProducts (some []) (qrTimeout (checkout (some [some rice])
        (some "blob:qr") (loadProducts (some [some rice]) initialClient)).1)) = true ∧
      activeVisible (loadProducts (some []) (qrTimeout (checkout (some [some rice])
        (some "blob:qr") (loadProducts (some [some rice]) initialClient)).1)) = true) :=
  have hidle : OnlyIdle initialClient := by
    simp [OnlyIdle, idleVisible, activeVisible, checkoutVisible, initialClient, Display.visible]
  ⟨hidle, rfl, (C7_idle_and_active_exclusive initialClient _ checkoutTrace hidle rfl).1⟩

/-! ### Server and poller together -/

theorem tick_store (sys : System) : sys.tick.store = sys.store := rfl

theorem tick_client (sys : System) :
    sys.tick.client = loadProducts (some sys.store.products) sys.client := rfl

theorem iterate_tick_store (k : Nat) (sys : System) : (System.tick^[k] sys).store = sys.store := by
  induction k with
  | zero => rfl
  | succ k ih => rw [Function.iterate_succ_apply', tick_store, ih]

theorem card_of_complete (p : Product) (h : p.complete = true) : ∃ x, card p = some x := by
  obtain ⟨id, name, price, taken, unit, payable⟩ := p
  simp only [Product.complete, Bool.and_eq_true, Option.isSome_iff_exists] at h
  obtain ⟨⟨⟨⟨⟨⟨a, ha⟩, ⟨b, hb⟩⟩, ⟨c, hc⟩⟩, ⟨d, hd⟩⟩, ⟨e, he⟩⟩, ⟨f, hf⟩⟩ := h
  subst ha hb hc hd he hf
  exact ⟨_, rfl⟩

theorem payable_of_complete (p : Product) (h : p.complete = true) :
    (payableText? (some p)).isSome = true := by
  simp only [Product.complete, Bool.and_eq_true] at h
  exact h.2

theorem readable_of_complete (products : List (Option Product))
    (h : ∀ entry ∈ products, ∃ p, entry = some p ∧ p.complete = true) :
    readable products = true := by
  unfold readable
  rw [List.all_eq_true]
  intro entry hmem
  obtain ⟨p, rfl, hp⟩ := h entry hmem
  exact payable_of_complete p hp

theorem tick_of_inSync (sys : System) (h : InSync sys) (hne : sys.store.products ≠ []) :
    sys.tick = sys := by
  have hpos : 0 < sys.store.products.length := List.length_pos.2 hne
  have hle : (sys.store.products.length : Int) ≤ sys.client.InitialCount + 1 := by
    rw [h.2.2]
    omega
  have hc := loadProducts_of_le sys.client sys.store.products hpos hle
  cases sys with
  | mk store client =>
    simp only [System.tick, getProduct] at *
    rw [hc]

theorem iterate_tick_of_inSync (k : Nat) (sys : System) (h : InSync sys)
    (hne : sys.store.products ≠ []) : System.tick^[k] sys = sys := by
  induction k with
  | zero => rfl
  | succ k ih => rw [Function.iterate_succ_apply', ih, tick_of_inSync sys h hne]

theorem addThenTick_inSync (sys : System) (h : InSync sys) (p : Product)
    (hp : p.complete = true) (extra : Nat) :
    InSync (sys.addThenTick (some p, extra)) ∧
    (sys.addThenTick (some p, extra)).store.products = sys.store.products ++ [some p] := by
  obtain ⟨x, hx⟩ := card_of_complete p hp
  have hall : ∀ entry ∈ sys.store.products ++ [some p],
      ∃ q, entry = some q ∧ q.complete = true := by
    intro entry hmem
    rcases List.mem_append.1 hmem with hm | hm
    · exact h.1 entry hm
    · exact ⟨p, List.mem_singleton.1 hm, hp⟩
  obtain ⟨payable, hsum⟩ := sumPayable_of_readable _ (readable_of_complete _ hall)
  have hcard : lastCard? (sys.store.products ++ [some p]) = some x := by
    simp [lastCard?, hx]
  have hpos : 0 < (sys.store.products ++ [some p]).length := by simp
  have hgt : ((sys.store.products ++ [some p]).length : Int) > sys.client.InitialCount + 1 := by
    rw [h.2.2]
    simp
  have hc := loadProducts_render sys.client _ payable x hpos hgt hsum hcard
  have hsync : InSync (System.tick { sys with store := (postProduct (some p) sys.store).1 }) := by
    refine ⟨?_, ?_, ?_⟩
    · rw [tick_store]
      exact hall
    · rw [tick_client, tick_store]
      show (loadProducts (some (sys.store.products ++ [some p])) sys.client).home.map some = _
      rw [hc]
      show (sys.client.home ++ [x]).map some
        = (sys.store.products ++ [some p]).map (fun entry => entry.bind card)
      rw [List.map_append, List.map_append, h.2.1]
      simp [hx]
    · rw [tick_client, tick_store]
      show (loadProducts (some (sys.store.products ++ [some p])) sys.client).InitialCount = _
      rw [hc]
      show sys.client.InitialCount + 1 = ((sys.store.products ++ [some p]).length : Int) - 1
      rw [h.2.2]
      simp
  have hne : (System.tick { sys with store := (postProduct (some p) sys.store).1 }).store.products
      ≠ [] := by
    rw [tick_store]
    simp [postProduct]
  have hiter : sys.addThenTick (some p, extra)
      = System.tick { sys with store := (postProduct (some p) sys.store).1 } := by
    unfold System.addThenTick
    rw [Function.iterate_succ_apply]
    exact iterate_tick_of_inSync _ _ hsync hne
  rw [hiter]
  exact ⟨hsync, by rw [tick_store]; rfl⟩

theorem runSchedule_inSync (schedule : List (Product × Nat)) :
    ∀ sys : System, InSync sys → (∀ entry ∈ schedule, entry.1.complete = true) →
      InSync (sys.runSchedule (schedule.map fun entry => (some entry.1, entry.2))) ∧
      (sys.runSchedule (schedule.map fun entry => (some entry.1, entry.2))).store.products
        = sys.store.products ++ schedule.map (fun entry => some entry.1) := by
  induction schedule with
  | nil =>
    intro sys h _
    exact ⟨h, by simp [System.runSchedule]⟩
  | cons entry rest ih =>
    intro sys h hall
    have h1 := addThenTick_inSync sys h entry.1 (hall entry (List.mem_cons_self _ _)) entry.2
    have h2 := ih (sys.addThenTick (some entry.1, entry.2)) h1.1
      (fun e he => hall e (List.mem_cons_of_mem _ he))
    have hrun : sys.runSchedule ((entry :: rest).map fun entry => (some entry.1, entry.2))
        = (sys.addThenTick (some entry.1, entry.2)).runSchedule
            (rest.map fun entry => (some entry.1, entry.2)) := rfl
    rw [hrun]
    refine ⟨h2.1, ?_⟩
    rw [h2.2, h1.2]
    simp

theorem burst_ticks (ps : List (Option Product)) (x : String) (hread : readable ps = true)
    (hcard : lastCard? ps = some x) (orders : List (Option Product)) (c0 : ClientState)
    (hcur : c0.InitialCount = -1) (hhome : c0.home = []) :
    ∀ j, j ≤ ps.length →
      (System.tick^[j] ⟨⟨ps, orders⟩, c0⟩).client.home = List.replicate j x ∧
      (System.tick^[j] ⟨⟨ps, orders⟩, c0⟩).client.InitialCount = (j : Int) - 1 := by
  obtain ⟨payable, hsum⟩ := sumPayable_of_readable ps hread
  intro j
  induction j with
  | zero =>
    intro _
    simp [hcur, hhome]
  | succ j ih =>
    intro hj
    have hprev := ih (by omega)
    rw [Function.iterate_succ_apply', tick_client, iterate_tick_store]
    have hgt : (ps.length : Int) > (System.tick^[j] ⟨⟨ps, orders⟩, c0⟩).client.InitialCount + 1 := by
      rw [hprev.2]
      omega
    have hc := loadProducts_render (System.tick^[j] ⟨⟨ps, orders⟩, c0⟩).client ps payable x
      (by omega) hgt hsum hcard
    show (loadProducts (some ps) _).home = _ ∧ (loadProducts (some ps) _).InitialCount = _
    rw [hc]
    show (System.tick^[j] ⟨⟨ps, orders⟩, c0⟩).client.home ++ [x] = _ ∧
      (System.tick^[j] ⟨⟨ps, orders⟩, c0⟩).client.InitialCount + 1 = _
    rw [hprev.1, hprev.2]
    constructor
    · rw [List.replicate_succ']
    · push_cast
      ring

/-- C10, as stated, fails.  After a record that is listed as `null` (a `POST /product` without a
body) every tick throws in its loop: no card is rendered and the cursor stays at `-1`, also for
the records added after it; the same goes for a record whose `payable` has no text. -/
theorem C10_no_card_after_a_record_that_throws :
    (System.runSchedule ⟨Store.empty, initialClient⟩ [(none, 0)]).client.home = [] ∧
    (System.runSchedule ⟨Store.empty, initialClient⟩ [(none, 0)]).client.InitialCount = -1 ∧
    (System.runSchedule ⟨Store.empty, initialClient⟩ [(none, 0), (some rice, 0)]).store.products
      = [none, some rice] ∧
    (System.runSchedule ⟨Store.empty, initialClient⟩ [(none, 0), (some rice, 0)]).client.home
      = [] ∧
    (System.runSchedule ⟨Store.empty, initialClient⟩ [(some unreadable, 0)]).client.home = [] ∧
    ¬ (∀ (schedule : List (Option Product × Nat)) (c0 : ClientState), 1 ≤ schedule.length →
        c0.InitialCount = -1 → c0.home = [] →
        (System.runSchedule ⟨Store.empty, c0⟩ schedule).client.home.length = schedule.length ∧
        (System.runSchedule ⟨Store.empty, c0⟩ schedule).client.InitialCount
          = (schedule.length : Int) - 1) := by
  refine ⟨rfl, rfl, rfl, rfl, rfl, ?_⟩
  intro h
  have h1 := (h [(none, 0)] initialClient (by decide) rfl rfl).1
  have h2 : (System.runSchedule ⟨Store.empty, initialClient⟩ [(none, 0)]).client.home = [] := rfl
  rw [h2] at h1
  exact absurd h1 (by decide)

/-- C10, amended: from an empty store and a client with cursor `-1` and nothing rendered, when
`n ≥ 1` records, each with all six fields in text, are added one at a time, each followed by at
least one poller tick and with no clear, the server lists the records, the rendered cards are
the cards of the records in insertion order, the cursor is `n - 1`, and any number of further
ticks change nothing.  Without a tick after each addition this fails: when the store already
holds `k` records at the first observation (`k ≥ 2`; the loop reads them all and the last one
has a card), each of the next `k` ticks appends a card of the last record. -/
theorem C10_one_addition_per_tick (schedule : List (Product × Nat)) (hn : 1 ≤ schedule.length)
    (hall : ∀ entry ∈ schedule, entry.1.complete = true)
    (c0 : ClientState) (hcur : c0.InitialCount = -1) (hhome : c0.home = [])
    (ps : List (Option Product)) (x : String)
    (hread : readable ps = true) (hcard : lastCard? ps = some x) :
    ((System.runSchedule ⟨Store.empty, c0⟩
        (schedule.map fun entry => (some entry.1, entry.2))).store.products
        = schedule.map (fun entry => some entry.1) ∧
      (System.runSchedule ⟨Store.empty, c0⟩
        (schedule.map fun entry => (some entry.1, entry.2))).client.home.map some
        = schedule.map (fun entry => card entry.1) ∧
      (System.runSchedule ⟨Store.empty, c0⟩
        (schedule.map fun entry => (some entry.1, entry.2))).client.home.length
        = schedule.length ∧
      (System.runSchedule ⟨Store.empty, c0⟩
        (schedule.map fun entry => (some entry.1, entry.2))).client.InitialCount
        = (schedule.length : Int) - 1 ∧
      ∀ k, System.tick^[k] (System.runSchedule ⟨Store.empty, c0⟩
          (schedule.map fun entry => (some entry.1, entry.2)))
        = System.runSchedule ⟨Store.empty, c0⟩
          (schedule.map fun entry => (some entry.1, entry.2))) ∧
    ∀ j, j ≤ ps.length →
      (System.tick^[j] ⟨⟨ps, []⟩, c0⟩).client.home = List.replicate j x ∧
      (System.tick^[j] ⟨⟨ps, []⟩, c0⟩).client.InitialCount = (j : Int) - 1 := by
  have h0 : InSync ⟨Store.empty, c0⟩ := by
    simp [InSync, Store.empty, hcur, hhome]
  have h := runSchedule_inSync schedule ⟨Store.empty, c0⟩ h0 hall
  generalize System.runSchedule ⟨Store.empty, c0⟩
    (schedule.map fun entry => (some entry.1, entry.2)) = final at h
  have hprod : final.store.products = schedule.map (fun entry => some entry.1) := by
    rw [h.2]
    simp [Store.empty]
  have hne : final.store.products ≠ [] := by
    rw [hprod]
    intro hnil
    have hs : schedule = [] := by simpa using hnil
    simp [hs] at hn
  have hmap : final.client.home.map some = schedule.map (fun entry => card entry.1) := by
    rw [h.1.2.1, hprod, List.map_map]
    rfl
  refine ⟨⟨hprod, hmap, ?_, ?_, fun k => iterate_tick_of_inSync k _ h.1 hne⟩,
    burst_ticks ps x hread hcard [] c0 hcur hhome⟩
  · have hl := congrArg List.length hmap
    simpa using hl
  · rw [h.1.2.2, hprod]
    simp

theorem C10_one_addition_per_tick_witness :
    (1 ≤ [(rice, 0), (dhal, 2)].length ∧
      (∀ entry ∈ [(rice, 0), (dhal, 2)], entry.1.complete = true) ∧
      initialClient.InitialCount = -1 ∧ initialClient.home = [] ∧
      2 ≤ [some rice, some dhal].length ∧ readable [some rice, some dhal] = true) ∧
    (∃ x, lastCard? [some rice, some dhal] = some x ∧ card dhal = some x ∧
      (System.runSchedule ⟨Store.empty, initialClient⟩
        [(some rice, 0), (some dhal, 2)]).client.home.map some = [card rice, card dhal] ∧
      (System.tick^[2] ⟨⟨[some rice, some dhal], []⟩, initialClient⟩).client.home = [x, x]) := by
  obtain ⟨x, hx⟩ : ∃ x, lastCard? [some rice, some dhal] = some x := ⟨_, rfl⟩
  have hall : ∀ entry ∈ [(rice, 0), (dhal, 2)], entry.1.complete = true := by decide
  have h := C10_one_addition_per_tick [(rice, 0), (dhal, 2)] (by decide) hall initialClient
    rfl rfl [some rice, some dhal] x (by decide) hx
  exact ⟨⟨by decide, hall, rfl, rfl, by decide, by decide⟩, x, hx, hx, h.1.2.1,
    (h.2 2 (by decide)).1⟩

/-! ### The checkout message -/

theorem hexDigit_ne_amp (n : Nat) (h : n < 16) : hexDigit n ≠ '&' := by
  interval_cases n <;> decide

theorem utf8Bytes_lt (c : Char) : ∀ b ∈ utf8Bytes c, b < 256 := by
  have hc : c.toNat < 0x110000 := by
    rcases c.valid with h | h
    · exact lt_trans h (by decide)
    · exact h.2
  intro b hb
  unfold utf8Bytes at hb
  split at hb
  · simp only [List.mem_singleton] at hb
    omega
  · split at hb
    · simp only [List.mem_cons, List.mem_singleton, List.not_mem_nil, or_false] at hb
      omega
    · split at hb
      · simp only [List.mem_cons, List.mem_singleton, List.not_mem_nil, or_false] at hb
        omega
      · simp only [List.mem_cons, List.mem_singleton, List.not_mem_nil, or_false] at hb
        omega

theorem amp_not_mem_encodeChar (c : Char) : '&' ∉ encodeChar c := by
  unfold encodeChar
  split
  · rename_i hu
    intro hmem
    have hc : c = '&' := (List.mem_singleton.1 hmem).symm
    subst hc
    exact absurd hu (by decide)
  · intro hmem
    obtain ⟨b, hb, hin⟩ := List.mem_flatMap.1 hmem
    have hlt := utf8Bytes_lt c b hb
    simp only [percentEscape, List.mem_cons, List.mem_singleton, List.not_mem_nil,
      or_false] at hin
    rcases hin with h | h | h
    · exact absurd h (by decide)
    · exact hexDigit_ne_amp _ (by omega) h.symm
    · exact hexDigit_ne_amp _ (by omega) h.symm

theorem amp_not_mem_encodeURIComponent (s : String) : '&' ∉ (encodeURIComponent s).toList := by
  intro hmem
  obtain ⟨c, _, hin⟩ := List.mem_flatMap.1 hmem
  exact amp_not_mem_encodeChar c hin

theorem queryParams_qrUrlOf (plain : String) :
    queryParams (qrUrlOf plain)
      = [("data", encodeURIComponent plain), ("size", "400x400"),
          ("color", "02c8db"), ("bgcolor", "ecf0f3")] := by
  have hsplit : (("data=".toList ++ (encodeURIComponent plain).toList ++
        "&size=400x400&color=02c8db&bgcolor=ecf0f3".toList).splitOn '&')
      = ["data=".toList ++ (encodeURIComponent plain).toList,
          "size=400x400".toList, "color=02c8db".toList, "bgcolor=ecf0f3".toList] := by
    have hint : "data=".toList ++ (encodeURIComponent plain).toList ++
          "&size=400x400&color=02c8db&bgcolor=ecf0f3".toList
        = ['&'].intercalate ["data=".toList ++ (encodeURIComponent plain).toList,
          "size=400x400".toList, "color=02c8db".toList, "bgcolor=ecf0f3".toList] := by
      simp [List.intercalate, List.intersperse]
    rw [hint]
    apply List.splitOn_intercalate
    · intro l hl
      simp only [List.mem_cons, List.mem_singleton, List.not_mem_nil, or_false] at hl
      rcases hl with rfl | rfl | rfl | rfl
      · intro hmem
        rcases List.mem_append.1 hmem with h | h
        · exact absurd h (by decide)
        · exact amp_not_mem_encodeURIComponent _ h
      · decide
      · decide
      · decide
    · simp
  have hurl : (qrUrlOf plain).toList
      = "https://api.qrserver.com/v1/create-qr-code/".toList ++ '?' ::
        ("data=".toList ++ (encodeURIComponent plain).toList ++
          "&size=400x400&color=02c8db&bgcolor=ecf0f3".toList) := by
    simp [qrUrlOf, String.data_append]
  have hdrop : (((qrUrlOf plain).toList.dropWhile (· ≠ '?')).drop 1)
      = "data=".toList ++ (encodeURIComponent plain).toList ++
          "&size=400x400&color=02c8db&bgcolor=ecf0f3".toList := by
    rw [hurl]
    simp [List.dropWhile]
  unfold queryParams
  rw [hdrop, hsplit]
  simp [List.takeWhile, List.dropWhile]

/-! ### Rounding to binary64 -/

theorem bitLengthAux_zero (fuel : Nat) : bitLengthAux fuel 0 = 0 := by
  cases fuel <;> simp [bitLengthAux]

theorem bitLengthAux_spec (fuel : Nat) :
    ∀ n, n ≤ fuel →
      n < 2 ^ bitLengthAux fuel n ∧ (n ≠ 0 → 2 ^ (bitLengthAux fuel n - 1) ≤ n) := by
  induction fuel with
  | zero =>
    intro n hn
    have h0 : n = 0 := by omega
    subst h0
    simp [bitLengthAux]
  | succ fuel ih =>
    intro n hn
    by_cases h0 : n = 0
    · subst h0
      simp [bitLengthAux]
    · have hhalf : n / 2 ≤ fuel := by omega
      obtain ⟨hlt, hge⟩ := ih (n / 2) hhalf
      simp only [bitLengthAux, h0, if_false, Nat.add_sub_cancel]
      refine ⟨?_, fun _ => ?_⟩
      · rw [pow_succ]
        omega
      · by_cases hz : n / 2 = 0
        · rw [hz, bitLengthAux_zero]
          simp
          omega
        · have h1 := hge hz
          have hk : 1 ≤ bitLengthAux fuel (n / 2) := by
            by_contra hcon
            have hk0 : bitLengthAux fuel (n / 2) = 0 := by omega
            rw [hk0] at hlt
            simp at hlt
            exact hz hlt
          have hpow : 2 ^ bitLengthAux fuel (n / 2) = 2 ^ (bitLengthAux fuel (n / 2) - 1) * 2 := by
            rw [← pow_succ]
            congr 1
            omega
          rw [hpow]
          omega

theorem bitLength_le_of_lt (n k : Nat) (h : n < 2 ^ k) : bitLength n ≤ k := by
  by_cases h0 : n = 0
  · subst h0
    simp [bitLength, bitLengthAux]
  · have hspec := (bitLengthAux_spec n n (le_refl n)).2 h0
    by_contra hcon
    have hk : k ≤ bitLengthAux n n - 1 := by
      unfold bitLength at hcon
      omega
    have hpow : 2 ^ k ≤ 2 ^ (bitLengthAux n n - 1) := Nat.pow_le_pow_right (Nat.succ_pos 1) hk
    omega

theorem roundHalfEven_bounds (n d : Nat) (hd : 0 < d) :
    2 * (roundHalfEven n d * d) ≤ 2 * n + d ∧ 2 * n ≤ 2 * (roundHalfEven n d * d) + d := by
  have hdm := Nat.div_add_mod n d
  have hmod := Nat.mod_lt n hd
  have hcomm : n / d * d = d * (n / d) := Nat.mul_comm _ _
  have hsucc : (n / d + 1) * d = d * (n / d) + d := by ring
  unfold roundHalfEven
  split
  · rw [hcomm]
    omega
  · split
    · rw [hsucc]
      omega
    · split
      · rw [hcomm]
        omega
      · rw [hsucc]
        omega

theorem roundToDouble_small (neg : Bool) (n d : Nat) (hd : 0 < d) (hn : n < d * 2 ^ 1104) :
    ∃ r, roundToDouble neg n d = .fin neg r ∧
      2 * (r * d) ≤ 2 * n + d * 2 ^ 1051 ∧ 2 * n ≤ 2 * (r * d) + d * 2 ^ 1051 := by
  have hq : n / d < 2 ^ 1104 := by
    rw [Nat.div_lt_iff_lt_mul hd]
    rw [Nat.mul_comm]
    exact hn
  have hlen : bitLength (n / d) ≤ 1104 := bitLength_le_of_lt _ _ hq
  have hsh : bitLength (n / d) - 53 ≤ 1051 := by omega
  unfold roundToDouble
  generalize bitLength (n / d) - 53 = sh at hsh
  have hmono : ∀ k, sh ≤ k → 2 ^ sh ≤ 2 ^ k := fun k hk =>
    Nat.pow_le_pow_right (Nat.succ_pos 1) hk
  have hpow := hmono 1051 hsh
  have hpos : 0 < d * 2 ^ sh := Nat.mul_pos hd (Nat.two_pow_pos sh)
  obtain ⟨hb1, hb2⟩ := roundHalfEven_bounds n (d * 2 ^ sh) hpos
  have hre : roundHalfEven n (d * 2 ^ sh) * (d * 2 ^ sh)
      = roundHalfEven n (d * 2 ^ sh) * 2 ^ sh * d := by ring
  rw [hre] at hb1 hb2
  have hle : d * 2 ^ sh ≤ d * 2 ^ 1051 := Nat.mul_le_mul_left d hpow
  have hfin : roundHalfEven n (d * 2 ^ sh) * 2 ^ sh < overflowUnits := by
    have h1 : 2 * (roundHalfEven n (d * 2 ^ sh) * 2 ^ sh * d) < 2 * (2 ^ 1105 * d) := by
      have h2 : d * 2 ^ 1051 ≤ d * 2 ^ 1104 := Nat.mul_le_mul_left d (by norm_num)
      have h3 : 2 ^ 1105 * d = 2 * (d * 2 ^ 1104) := by ring
      omega
    have h4 : roundHalfEven n (d * 2 ^ sh) * 2 ^ sh < 2 ^ 1105 := by
      have h5 := Nat.lt_of_mul_lt_mul_left h1
      exact Nat.lt_of_mul_lt_mul_right h5
    exact lt_trans h4 (by norm_num [overflowUnits])
  refine ⟨roundHalfEven n (d * 2 ^ sh) * 2 ^ sh, ?_, by omega, by omega⟩
  rw [if_pos hfin]

theorem add_small (a b : Nat) (h : a + b < 2 ^ 1104) :
    ∃ r, (JSNumber.fin false a).add (.fin false b) = .fin false r ∧
      2 * r ≤ 2 * (a + b) + 2 ^ 1051 ∧ 2 * (a + b) ≤ 2 * r + 2 ^ 1051 := by
  obtain ⟨r, hr, h1, h2⟩ := roundToDouble_small false (a + b) 1 (by decide) (by omega)
  refine ⟨r, ?_, by omega, by omega⟩
  simp only [JSNumber.add, if_true]
  exact hr

theorem parseFloat_of_cents (s : String) (c : Nat) (h : cents? s = some c) (hc : c ≤ 10 ^ 11) :
    decimalValue s = some ((c : ℚ) / 100) ∧
    ∃ r, parseFloat s = .fin false r ∧
      100 * r ≤ 2 ^ 1074 * c + 100 * 2 ^ 1050 ∧ 2 ^ 1074 * c ≤ 100 * r + 100 * 2 ^ 1050 := by
  unfold cents? at h
  unfold decimalValue parseFloat
  cases hp : parseStrDecimal s with
  | none => simp [hp] at h
  | some lit =>
    cases lit with
    | infinity neg => simp [hp] at h
    | decimal neg m e =>
      cases neg with
      | true => simp [hp] at h
      | false =>
        simp only [hp] at h
        by_cases he : -2 ≤ e
        · rw [if_pos he] at h
          have hcm : c = m * 10 ^ (e + 2).toNat := (Option.some.inj h).symm
          obtain ⟨k, hk⟩ : ∃ k : ℕ, e = (k : ℤ) - 2 := ⟨(e + 2).toNat, by omega⟩
          subst hk
          have hk2 : ((k : ℤ) - 2 + 2).toNat = k := by omega
          rw [hk2] at hcm
          simp only [unitsPerOne]
          rcases k with _ | _ | k
          · have e1 : (((0 : ℕ) : ℤ) - 2).toNat = 0 := by decide
            have e2 : (-(((0 : ℕ) : ℤ) - 2)).toNat = 2 := by decide
            rw [e1, e2]
            have hcm2 : c = m := by simpa using hcm
            subst hcm2
            obtain ⟨r, hr, h1, h2⟩ := roundToDouble_small false (c * 10 ^ 0 * 2 ^ 1074) (10 ^ 2)
              (by norm_num) (by omega)
            refine ⟨?_, r, hr, by omega, by omega⟩
            simp
          · have e1 : ((((0 + 1 : ℕ)) : ℤ) - 2).toNat = 0 := by decide
            have e2 : (-((((0 + 1 : ℕ)) : ℤ) - 2)).toNat = 1 := by decide
            rw [e1, e2]
            have hcm2 : c = m * 10 := by simpa using hcm
            subst hcm2
            obtain ⟨r, hr, h1, h2⟩ := roundToDouble_small false (m * 10 ^ 0 * 2 ^ 1074) (10 ^ 1)
              (by norm_num) (by omega)
            refine ⟨?_, r, hr, by omega, by omega⟩
            simp only [Bool.false_eq_true, if_false, pow_zero, mul_one, one_mul, pow_one,
              Option.some.injEq]
            push_cast
            ring
          · have e1 : ((((k + 1 + 1 : ℕ)) : ℤ) - 2).toNat = k := by omega
            have e2 : (-((((k + 1 + 1 : ℕ)) : ℤ) - 2)).toNat = 0 := by omega
            rw [e1, e2]
            have hcm2 : c = m * 10 ^ k * 100 := by
              rw [hcm]
              ring
            generalize m * 10 ^ k = M at hcm2 ⊢
            subst hcm2
            obtain ⟨r, hr, h1, h2⟩ := roundToDouble_small false (M * 2 ^ 1074) (10 ^ 0)
              (by norm_num) (by omega)
            refine ⟨?_, r, hr, by omega, by omega⟩
            simp only [Bool.false_eq_true, if_false, pow_zero, one_mul,
              Option.some.injEq]
            push_cast
            ring
        · rw [if_neg he] at h
          simp at h

theorem totalCents_cons (entry : Option Product) (rest : List (Option Product)) :
    totalCents (entry :: rest) = (payableCents? entry).getD 0 + totalCents rest := by
  simp [totalCents]

theorem payableCents?_eq (entry : Option Product) (c : Nat)
    (h : payableCents? entry = some c) :
    ∃ p text, entry = some p ∧ p.payable = some text ∧ cents? text = some c := by
  cases entry with
  | none => simp [payableCents?, payableText?] at h
  | some p =>
    cases hp : p.payable with
    | none => simp [payableCents?, payableText?, hp] at h
    | some text =>
      refine ⟨p, text, rfl, hp, ?_⟩
      simpa [payableCents?, payableText?, hp] using h

theorem payableLoop_bounds (ps : List (Option Product)) :
    ∀ (a C j : Nat), (∀ entry ∈ ps, (payableCents? entry).isSome = true) →
      j + ps.length ≤ 40000 → C + totalCents ps ≤ 10 ^ 11 →
      100 * a ≤ 2 ^ 1074 * C + 100 * j * 2 ^ 1051 →
      2 ^ 1074 * C ≤ 100 * a + 100 * j * 2 ^ 1051 →
      ∃ a', payableLoop ps (JSNumber.fin false a) = some (JSNumber.fin false a') ∧
        100 * a' ≤ 2 ^ 1074 * (C + totalCents ps) + 100 * (j + ps.length) * 2 ^ 1051 ∧
        2 ^ 1074 * (C + totalCents ps) ≤ 100 * a' + 100 * (j + ps.length) * 2 ^ 1051 := by
  induction ps with
  | nil =>
    intro a C j _ _ _ h1 h2
    have ht : totalCents [] = 0 := rfl
    refine ⟨a, rfl, ?_, ?_⟩
    · rw [ht, List.length_nil, Nat.add_zero, Nat.add_zero]
      exact h1
    · rw [ht, List.length_nil, Nat.add_zero, Nat.add_zero]
      exact h2
  | cons entry ps ih =>
    intro a C j hall hlen hsum h1 h2
    obtain ⟨c, hc⟩ : ∃ c, payableCents? entry = some c :=
      Option.isSome_iff_exists.1 (hall entry (List.mem_cons_self _ _))
    obtain ⟨p, text, rfl, hp, hct⟩ := payableCents?_eq entry c hc
    rw [totalCents_cons, hc] at hsum
    simp only [Option.getD_some, List.length_cons] at hsum hlen
    obtain ⟨_, r, hr, hr1, hr2⟩ := parseFloat_of_cents text c hct (by omega)
    obtain ⟨r', hadd, ha1, ha2⟩ := add_small a r (by omega)
    obtain ⟨a', hfold, hb1, hb2⟩ := ih r' (C + c) (j + 1)
      (fun q hq => hall q (List.mem_cons_of_mem _ hq)) (by omega) (by omega) (by omega)
      (by omega)
    refine ⟨a', ?_, ?_, ?_⟩
    · simp only [payableLoop, hp]
      rw [hr, hadd]
      exact hfold
    · rw [totalCents_cons, hc]
      simp only [Option.getD_some, List.length_cons]
      omega
    · rw [totalCents_cons, hc]
      simp only [Option.getD_some, List.length_cons]
      omega

theorem toFixed_of_bounds (a C j : Nat) (hj : j ≤ 40000) (hC : C ≤ 10 ^ 11)
    (h1 : 100 * a ≤ 2 ^ 1074 * C + 100 * j * 2 ^ 1051)
    (h2 : 2 ^ 1074 * C ≤ 100 * a + 100 * j * 2 ^ 1051) :
    (JSNumber.fin false a).toFixed 2 = fixedString 2 C := by
  have hbig : ¬ 10 ^ 21 * unitsPerOne ≤ a := by
    unfold unitsPerOne
    omega
  have hdiv : (2 * 10 ^ 2 * a + unitsPerOne) / (2 * unitsPerOne) = C := by
    unfold unitsPerOne
    omega
  have hsign : ¬ (false = true ∧ a ≠ 0) := fun h => Bool.false_ne_true h.1
  have hdef : (JSNumber.fin false a).toFixed 2
      = (if false = true ∧ a ≠ 0 then "-" else "") ++
        if 10 ^ 21 * unitsPerOne ≤ a then exponentialString (a / unitsPerOne)
        else fixedString 2 ((2 * 10 ^ 2 * a + unitsPerOne) / (2 * unitsPerOne)) := rfl
  rw [hdef, if_neg hsign, if_neg hbig, hdiv]
  exact String.empty_append _

theorem exactSum_of_cents (ps : List (Option Product))
    (hall : ∀ entry ∈ ps, (payableCents? entry).isSome = true)
    (hsum : totalCents ps ≤ 10 ^ 11) :
    exactSum ps = some ((totalCents ps : ℚ) / 100) := by
  induction ps with
  | nil => simp [exactSum, totalCents]
  | cons entry ps ih =>
    obtain ⟨c, hc⟩ : ∃ c, payableCents? entry = some c :=
      Option.isSome_iff_exists.1 (hall entry (List.mem_cons_self _ _))
    obtain ⟨p, text, rfl, hp, hct⟩ := payableCents?_eq entry c hc
    rw [totalCents_cons, hc] at hsum
    simp only [Option.getD_some] at hsum
    have hv := (parseFloat_of_cents text c hct (by omega)).1
    have hrest := ih (fun q hq => hall q (List.mem_cons_of_mem _ hq)) (by omega)
    have hval : payableValue? (some p) = some ((c : ℚ) / 100) := by
      simp [payableValue?, payableText?, hp, hv]
    rw [totalCents_cons, hc]
    simp only [exactSum, hval, hrest, Option.getD_some, Option.some.injEq]
    push_cast
    ring

theorem roundTwoDecimals_of_cents (C : Nat) :
    roundTwoDecimals ((C : ℚ) / 100) = fixedString 2 C := by
  have hnn : (0 : ℚ) ≤ (C : ℚ) / 100 := by positivity
  have hneg : ¬ (C : ℚ) / 100 < 0 := not_lt.2 hnn
  have hfloor : ⌊|(C : ℚ) / 100| * 100 + 1 / 2⌋ = (C : ℤ) := by
    rw [abs_of_nonneg hnn, Int.floor_eq_iff]
    constructor
    · push_cast
      linarith
    · push_cast
      linarith
  simp only [roundTwoDecimals, hneg, if_false, hfloor, Int.toNat_ofNat]
  exact String.empty_append _

theorem runningTotal_eq_exactTotal (products : List (Option Product))
    (hall : ∀ entry ∈ products, (payableCents? entry).isSome = true)
    (hlen : products.length ≤ 40000) (hsum : totalCents products ≤ 10 ^ 11) :
    runningTotal products = some (fixedString 2 (totalCents products)) ∧
    exactTotal products = some (fixedString 2 (totalCents products)) := by
  obtain ⟨a, hfold, h1, h2⟩ := payableLoop_bounds products 0 0 0 hall (by omega) (by omega)
    (by omega) (by omega)
  simp only [Nat.zero_add] at h1 h2
  constructor
  · unfold runningTotal sumPayable
    rw [hfold]
    show some ((JSNumber.fin false a).toFixed 2) = _
    rw [toFixed_of_bounds a (totalCents products) products.length hlen hsum h1 h2]
  · rw [exactTotal, exactSum_of_cents products hall hsum]
    show some (roundTwoDecimals _) = _
    rw [roundTwoDecimals_of_cents]

theorem payableLoop_append (ps : List (Option Product)) (p : Product) :
    ∀ payable, payableLoop (ps ++ [some p]) payable
      = (payableLoop ps payable).bind fun acc =>
          p.payable.map fun text => acc.add (parseFloat text) := by
  induction ps with
  | nil =>
    intro payable
    cases hp : p.payable <;> simp [payableLoop, hp]
  | cons entry rest ih =>
    intro payable
    cases entry with
    | none => simp [payableLoop]
    | some q =>
      cases hq : q.payable with
      | none => simp [payableLoop, hq]
      | some text =>
        simp only [List.cons_append, payableLoop, hq]
        exact ih _

theorem label_of_rendering_tick (s : ClientState) (observed : List (Option Product))
    (hpos : 0 < observed.length) (hgt : (observed.length : Int) > s.InitialCount + 1)
    (hread : readable observed = true) (hcard : (lastCard? observed).isSome = true) :
    ∃ total, runningTotal observed = some total ∧
      (loadProducts (some observed) s).label2 = "CHECKOUT LKR " ++ total := by
  obtain ⟨payable, hsum⟩ := sumPayable_of_readable observed hread
  obtain ⟨x, hx⟩ := Option.isSome_iff_exists.1 hcard
  refine ⟨payable.toFixed 2, by simp [runningTotal, hsum], ?_⟩
  rw [loadProducts_render s observed payable x hpos hgt hsum hx]

/-- C5, as stated, fails: the total of the loop is a binary64 sum.  For the single payable
`1.005` the loop gives `1.00` while the exact decimal rounded to two decimals is `1.01`; for
the single payable `9007199254740993.00`, which needs no rounding at all, the loop gives
`9007199254740992.00`. -/
theorem C5_loop_total_differs_from_exact :
    decimalValue "1.005" = some (201 / 200) ∧
    runningTotal [some ⟨some "7", some "Salt", some "1.005", some "1", some "kg",
      some "1.005"⟩] = some "1.00" ∧
    exactTotal [some ⟨some "7", some "Salt", some "1.005", some "1", some "kg",
      some "1.005"⟩] = some "1.01" ∧
    runningTotal [some ⟨some "8", some "Gold", some "9007199254740993.00", some "1", some "kg",
      some "9007199254740993.00"⟩] = some "9007199254740992.00" ∧
    exactTotal [some ⟨some "8", some "Gold", some "9007199254740993.00", some "1", some "kg",
      some "9007199254740993.00"⟩] = some "9007199254740993.00" ∧
    ¬ (∀ products : List (Option Product), (∀ entry ∈ products, payableValue? entry ≠ none) →
        exactTotal products = runningTotal products) := by
  have h1 : decimalValue "1.005" = some (201 / 200) := by decide!
  have h2 : runningTotal [some ⟨some "7", some "Salt", some "1.005", some "1", some "kg",
      some "1.005"⟩] = some "1.00" := by decide!
  have h3 : exactTotal [some ⟨some "7", some "Salt", some "1.005", some "1", some "kg",
      some "1.005"⟩] = some "1.01" := by decide!
  have h4 : runningTotal [some ⟨some "8", some "Gold", some "9007199254740993.00", some "1",
      some "kg", some "9007199254740993.00"⟩] = some "9007199254740992.00" := by decide!
  have h5 : exactTotal [some ⟨some "8", some "Gold", some "9007199254740993.00", some "1",
      some "kg", some "9007199254740993.00"⟩] = some "9007199254740993.00" := by decide!
  refine ⟨h1, h2, h3, h4, h5, ?_⟩
  intro hall
  have h := hall [some ⟨some "7", some "Salt", some "1.005", some "1", some "kg",
      some "1.005"⟩] (by
    intro entry hmem
    rw [List.mem_singleton.1 hmem]
    show (some "1.005" : Option String).bind decimalValue ≠ none
    rw [Option.some_bind, h1]
    exact Option.some_ne_none _)
  rw [h2, h3] at h
  exact absurd h (by decide)

/-- C5, amended: for every list of at most 40000 records whose payable fields are unsigned
decimal texts with at most two decimals and whose exact sum is at most 1 000 000 000.00, the
total of the loop (start at `0`, add `parseFloat(payable)` for every record, `toFixed(2)`)
equals the exact decimal sum rounded to two decimals; for no record it is `0.00`; for payables
`500.00` and `150.50` it is `650.50`; every record of the list enters the sum; and on a rendering
tick, whatever the cursor, the label of `#2` is `CHECKOUT LKR ` followed by the total of the
observed list. -/
theorem C5_loop_total_exact_within_bounds (products : List (Option Product))
    (hall : ∀ entry ∈ products, (payableCents? entry).isSome = true)
    (hlen : products.length ≤ 40000) (hsum : totalCents products ≤ 10 ^ 11)
    (s : ClientState) (observed : List (Option Product)) (hpos : 0 < observed.length)
    (hgt : (observed.length : Int) > s.InitialCount + 1)
    (hread : readable observed = true) (hcard : (lastCard? observed).isSome = true) :
    (∃ total, runningTotal products = some total ∧ exactTotal products = some total) ∧
    runningTotal [] = some "0.00" ∧
    (∀ a b : Product, a.payable = some "500.00" → b.payable = some "150.50" →
      runningTotal [some a, some b] = some "650.50") ∧
    (∀ (ps : List (Option Product)) (p : Product),
      sumPayable (ps ++ [some p]) = (sumPayable ps).bind fun acc =>
        p.payable.map fun text => acc.add (parseFloat text)) ∧
    ∃ total, runningTotal observed = some total ∧
      (loadProducts (some observed) s).label2 = "CHECKOUT LKR " ++ total := by
  have hexact := runningTotal_eq_exactTotal products hall hlen hsum
  refine ⟨⟨_, hexact.1, hexact.2⟩, by decide!, ?_,
    fun ps p => payableLoop_append ps p _, label_of_rendering_tick s observed hpos hgt hread hcard⟩
  intro a b ha hb
  have h : runningTotal [some a, some b]
      = (payableLoop [some a, some b] (.fin false 0)).map fun payable => payable.toFixed 2 := rfl
  rw [h]
  simp only [payableLoop, ha, hb]
  decide!

theorem C5_loop_total_exact_within_bounds_witness :
    ((∀ entry ∈ [some rice, some dhal], (payableCents? entry).isSome = true) ∧
      [some rice, some dhal].length ≤ 40000 ∧
      totalCents [some rice, some dhal] ≤ 10 ^ 11 ∧ 0 < [some rice, some dhal].length ∧
      (([some rice, some dhal].length : Int) > initialClient.InitialCount + 1) ∧
      readable [some rice, some dhal] = true ∧
      (lastCard? [some rice, some dhal]).isSome = true) ∧
    (∃ total, runningTotal [some rice, some dhal] = some total ∧
      exactTotal [some rice, some dhal] = some total) ∧
    (rice.payable = some "500.00" ∧ dhal.payable = some "150.50" ∧
      runningTotal [some rice, some dhal] = some "650.50") ∧
    ∃ total, runningTotal [some rice, some dhal] = some total ∧
      (loadProducts (some [some rice, some dhal]) initialClient).label2
        = "CHECKOUT LKR " ++ total := by
  have hall : ∀ entry ∈ [some rice, some dhal], (payableCents? entry).isSome = true := by
    decide!
  have hsum : totalCents [some rice, some dhal] ≤ 10 ^ 11 := by decide!
  have h := C5_loop_total_exact_within_bounds [some rice, some dhal] hall (by decide) hsum
    initialClient [some rice, some dhal] (by decide) (by decide) (by decide) (by decide)
  exact ⟨⟨hall, by decide, hsum, by decide, by decide, by decide, by decide⟩, h.1,
    ⟨rfl, rfl, h.2.2.1 rice dhal rfl rfl⟩, h.2.2.2.2⟩

/-- C6, as stated, fails.  When the list fetched at checkout has a `null` entry, or a record
whose `payable` has no text conversion, the loop throws before the message is built: no QR URL
is requested. -/
theorem C6_checkout_that_throws_requests_nothing :
    (checkout (some [none]) (some "blob:qr") initialClient).2 = [] ∧
    (checkout (some [some rice, some unreadable]) (some "blob:qr") initialClient).2 = [] ∧
    plainData [none] = none ∧
    (checkout (some [none]) (some "blob:qr") initialClient).1.displayQr = .none ∧
    ¬ (∀ (products : List (Option Product)) (img : Option String) (s : ClientState),
        ∃ url, (checkout (some products) img s).2 = [url]) := by
  refine ⟨rfl, rfl, rfl, rfl, ?_⟩
  intro h
  obtain ⟨url, hurl⟩ := h [none] (some "blob:qr") initialClient
  have h0 : (checkout (some [none]) (some "blob:qr") initialClient).2 = [] := rfl
  rw [h0] at hurl
  exact absurd hurl (by simp)

/-- C6, amended: whatever the client state (cursor, last label), a `checkout` that fetches a
list whose entries are all records with a `payable` in text asks the QR service for exactly one
URL; that URL is the fixed address followed by `data=`, the URL-encoding of
`Total Payable: LKR ` plus the `toFixed(2)` total of all records of the list just fetched, and
`&size=400x400&color=02c8db&bgcolor=ecf0f3`; its query has the parameter `data` exactly once,
with that encoding as value.  When an entry is `null` or its `payable` has no text, no message
is built and no URL is requested: only the label of `#2` has changed.  For payables `500.00`
and `150.50` the message is `Total Payable: LKR 650.50`. -/
theorem C6_checkout_message (products : List (Option Product)) (img : Option String)
    (s : ClientState) :
    (readable products = true → ∃ total, runningTotal products = some total ∧
      plainData products = some ("Total Payable: LKR " ++ total) ∧
      qrUrl products = some ("https://api.qrserver.com/v1/create-qr-code/?data="
        ++ encodeURIComponent ("Total Payable: LKR " ++ total)
        ++ "&size=400x400&color=02c8db&bgcolor=ecf0f3") ∧
      (checkout (some products) img s).2 = ["https://api.qrserver.com/v1/create-qr-code/?data="
        ++ encodeURIComponent ("Total Payable: LKR " ++ total)
        ++ "&size=400x400&color=02c8db&bgcolor=ecf0f3"] ∧
      queryParams ("https://api.qrserver.com/v1/create-qr-code/?data="
        ++ encodeURIComponent ("Total Payable: LKR " ++ total)
        ++ "&size=400x400&color=02c8db&bgcolor=ecf0f3")
        = [("data", encodeURIComponent ("Total Payable: LKR " ++ total)),
            ("size", "400x400"), ("color", "02c8db"), ("bgcolor", "ecf0f3")] ∧
      ((queryParams ("https://api.qrserver.com/v1/create-qr-code/?data="
        ++ encodeURIComponent ("Total Payable: LKR " ++ total)
        ++ "&size=400x400&color=02c8db&bgcolor=ecf0f3")).filter
          fun kv => kv.1 = "data").length = 1) ∧
    (readable products = false →
      checkout (some products) img s = ({ s with label2 := loaderMarkup }, [])) ∧
    (∀ a b : Product, a.payable = some "500.00" → b.payable = some "150.50" →
      plainData [some a, some b] = some "Total Payable: LKR 650.50" ∧
      qrUrl [some a, some b] = some ("https://api.qrserver.com/v1/create-qr-code/?data="
        ++ "Total%20Payable%3A%20LKR%20650.50" ++ "&size=400x400&color=02c8db&bgcolor=ecf0f3")) := by
  refine ⟨?_, ?_, ?_⟩
  · intro hread
    obtain ⟨payable, hsum⟩ := sumPayable_of_readable products hread
    have hplain : plainData products = some ("Total Payable: LKR " ++ payable.toFixed 2) := by
      simp [plainData, hsum, plainDataOf]
    have hurl : qrUrl products = some (qrUrlOf ("Total Payable: LKR " ++ payable.toFixed 2)) := by
      simp [qrUrl, hplain]
    have hq := queryParams_qrUrlOf ("Total Payable: LKR " ++ payable.toFixed 2)
    refine ⟨payable.toFixed 2, by simp [runningTotal, hsum], hplain, hurl, ?_, hq, ?_⟩
    · cases img <;> simp [checkout, hurl, qrUrlOf]
    · show ((queryParams (qrUrlOf ("Total Payable: LKR " ++ payable.toFixed 2))).filter
        fun kv => kv.1 = "data").length = 1
      rw [hq]
      simp [List.filter]
  · intro hread
    have hsum := sumPayable_of_not_readable products hread
    have hurl : qrUrl products = none := by simp [qrUrl, plainData, hsum]
    simp [checkout, hurl]
  · intro a b ha hb
    have h : plainData [some a, some b]
        = (payableLoop [some a, some b] (.fin false 0)).map plainDataOf := rfl
    have hp : plainData [some a, some b] = some "Total Payable: LKR 650.50" := by
      rw [h]
      simp only [payableLoop, ha, hb]
      decide!
    refine ⟨hp, ?_⟩
    unfold qrUrl
    rw [hp]
    decide!

theorem C6_checkout_message_witness :
    (readable [some rice, some dhal] = true ∧ rice.payable = some "500.00" ∧
      dhal.payable = some "150.50" ∧ readable [some rice, none] = false) ∧
    (∃ total, runningTotal [some rice, some dhal] = some total ∧
      (checkout (some [some rice, some dhal]) (some "blob:qr") initialClient).2
        = ["https://api.qrserver.com/v1/create-qr-code/?data="
          ++ encodeURIComponent ("Total Payable: LKR " ++ total)
          ++ "&size=400x400&color=02c8db&bgcolor=ecf0f3"]) ∧
    plainData [some rice, some dhal] = some "Total Payable: LKR 650.50" ∧
    checkout (some [some rice, none]) (some "blob:qr") initialClient
      = ({ initialClient with label2 := loaderMarkup }, []) := by
  have h := C6_checkout_message [some rice, some dhal] (some "blob:qr") initialClient
  have h' := C6_checkout_message [some rice, none] (some "blob:qr") initialClient
  obtain ⟨total, ht, _, _, hreq, _⟩ := h.1 (by decide)
  exact ⟨⟨by decide, rfl, rfl, by decide⟩, ⟨total, ht, hreq⟩, (h.2.2 rice dhal rfl rfl).1,
    h'.2.1 (by decide)⟩


end Campus
